import Mathlib

/-!
Verification development for the vehicle demand-record mapping
(`src/mapping.py`): a shallow embedding of the transformation from a flat
list of demand/material records into a nested vehicle document, together
with proofs of the specified properties of the grouping, per-step
accumulation, and cross-group merge algorithm.

Python strings are modelled as Lean `String`s (operated on through their
character lists), Python integers as `Int`, Python `dict` payloads as
structures whose optional keys are `Option`-valued, and Python exceptions
(`KeyError`, `ValueError`, `DvfException`) as an `Except PyError` result.
-/

namespace Mapping

/-- Errors the transformation can raise: `KeyError` from a missing dict
key, `ValueError` from `int()` on an unparsable string or from an
out-of-range timezone offset, and the repository's `DvfException`. -/
inductive PyError where
  | keyError (key : String)
  | valueError (msg : String)
  | dvfException (msg : String)
deriving DecidableEq, Repr

/-- Python slice `s[a:b]` for `a ≤ b`: characters at indices `a, ..., b-1`,
clamped to the string (slicing never raises). -/
def py_slice (s : String) (a b : Nat) : String :=
  ⟨(s.data.drop a).take (b - a)⟩

/-- Python slice `s[0:n]`. -/
def py_take (s : String) (n : Nat) : String :=
  ⟨s.data.take n⟩

/-- Python slice `s[a:]`. -/
def py_drop (s : String) (a : Nat) : String :=
  ⟨s.data.drop a⟩

/-- Python `s.startswith(p)`. -/
def py_startswith (s p : String) : Bool :=
  p.data.isPrefixOf s.data

/-- Fuel-driven worker for `py_replace`; the fuel (initially the length of
the subject plus one) bounds the number of emitted characters and keeps the
recursion structural so that it evaluates inside the kernel. -/
def list_replace (pat repl : List Char) : Nat → List Char → List Char
  | _, [] => []
  | 0, s => s
  | fuel + 1, c :: rest =>
    if pat.isPrefixOf (c :: rest) then
      repl ++ list_replace pat repl fuel ((c :: rest).drop pat.length)
    else
      c :: list_replace pat repl fuel rest

/-- Python `s.replace(pat, repl)` for a nonempty pattern: every
(left-to-right, non-overlapping) occurrence of `pat` is replaced. -/
def py_replace (s pat repl : String) : String :=
  ⟨list_replace pat.data repl.data (s.data.length + 1) s.data⟩

/-- Numeric value of the digits `cs` read in base ten. -/
def digits_to_nat (cs : List Char) : Nat :=
  cs.foldl (fun a c => 10 * a + (c.toNat - 48)) 0

/-- Parse a nonempty all-digit character list; `none` otherwise. -/
def py_int_digits (cs : List Char) : Option Nat :=
  if cs ≠ [] ∧ cs.all Char.isDigit then some (digits_to_nat cs) else none

/-- Strip leading and trailing whitespace, as Python `int()` does before
parsing. -/
def py_strip (cs : List Char) : List Char :=
  ((cs.dropWhile Char.isWhitespace).reverse.dropWhile Char.isWhitespace).reverse

/-- Python `int(s)` for ASCII strings without underscore separators:
optional surrounding whitespace, an optional single sign, then a nonempty
run of decimal digits; `none` models the `ValueError` raised otherwise. -/
def py_int (s : String) : Option Int :=
  match py_strip s.data with
  | '+' :: rest => (py_int_digits rest).map Int.ofNat
  | '-' :: rest => (py_int_digits rest).map (fun n => -(n : Int))
  | cs => (py_int_digits cs).map Int.ofNat

/-- Python `int(s)` in the `Except` monad: an unparsable string raises
`ValueError`. -/
def py_int_exc (s : String) : Except PyError Int :=
  match py_int s with
  | some n => .ok n
  | none => .error (.valueError s)

/-- One demand/material record of the incoming payload.
`materialNumber`, `quantity` and `plannedOrderId` are accessed
unconditionally by the code; the four provenance keys are looked up only
for the first record of each production step and may be absent
(`none` models a missing dict key, which raises `KeyError` on access). -/
structure DemandRecord where
  materialNumber : String
  quantity : Int
  plannedOrderId : String
  reservationPosition : Option String
  reservationNumber : Option String
  peggedRequirement : Option String
  itemCategory : Option String
deriving DecidableEq, Repr

/-- `attributes` of a vehicleProductionStep node. -/
structure StepAttributes where
  productionStep : String
deriving DecidableEq, Repr

/-- `relationshipAttributes` of a vehicleProductionStep node. -/
structure StepRelAttributes where
  quantity : Int
  plannedOrderNumber : String
  reservationItemNumber : String
  reservationNumber : String
  materialGroupTopLevel : String
  itemCategory : String
deriving DecidableEq, Repr

/-- A `vehicleProductionStep` child node (`build_vehicle_production_step`). -/
structure StepNode where
  type : String
  attributes : StepAttributes
  relationshipAttributes : StepRelAttributes
deriving DecidableEq, Repr

/-- `attributes` of a materialChangeIndex node: the derived key. -/
structure MciAttributes where
  partNumber : String
  changeIndex : Int
deriving DecidableEq, Repr

/-- `relationshipAttributes` of a materialChangeIndex node. -/
structure MciRelAttributes where
  quantity : Int
deriving DecidableEq, Repr

/-- A `materialChangeIndex` node (`build_material_change_index`). -/
structure MciNode where
  type : String
  attributes : MciAttributes
  relationshipAttributes : MciRelAttributes
  relationshipChildren : List StepNode
deriving DecidableEq, Repr

/-- The `stard_kafka_vehicles` payload: the vehicle-level fields the code
reads unconditionally, plus the list of material records. -/
structure StardKafkaVehicle where
  vin17 : String
  utcCheckpointTimestamp : String
  localCheckpointTimestamp : String
  utcBuildTimestamp : String
  sapPlantId : String
  modelCode : String
  orderStatus : String
  orderNumber : String
  materials : List DemandRecord
deriving DecidableEq, Repr

/-- The vehicle `attributes` dict assembled by `build_vehicle_attributes`. -/
structure VehicleAttributes where
  Vin : String
  SapPlantCode : String
  plantCode : Option String
  buildDate : String
  buildTime : String
  buildTimestamp : String
  modelCode : String
  buildStatus : Int
  orderNumber : String
  checkpointTimestamp : String
  checkpointTimeZone : String
deriving DecidableEq, Repr

/-- The output document body (`process`, lines 43-47). -/
structure Body where
  type : String
  attributes : VehicleAttributes
  children : List MciNode
deriving DecidableEq, Repr

/-- The `plant_source_system` lookup table. -/
def plant_source_system : List (String × String) :=
  [("A110TUP", "StardMuc"), ("A120TDP", "StardDgf"), ("A110TUQ", "StardMuc"),
   ("A120TDQ", "StardDgf"), ("A130", "StardBer"), ("A150", "StardLpz"),
   ("LY78", "StardSlp"), ("MU80", "StardOxf"), ("A160", "StardReg")]

/-- The `source_system_to_bmw_plant_code` lookup table. -/
def source_system_to_bmw_plant_code : List (String × String) :=
  [("StardMuc", "01.10"), ("StardDgf", "02.40"), ("StardBer", "03.10"),
   ("StardLpz", "07.10"), ("StardSlp", "30.10"), ("StardOxf", "34.00"),
   ("StardReg", "06.10")]

/-- `get_bmw_plant_code`: if the SAP plant code is a key of
`plant_source_system`, index `source_system_to_bmw_plant_code` with the
mapped source system (a plain `dict[...]` access, so a missing key there
would raise `KeyError`); otherwise return `None`. -/
def get_bmw_plant_code (sap_plant_code : String) : Except PyError (Option String) :=
  match plant_source_system.lookup sap_plant_code with
  | some source_system =>
    match source_system_to_bmw_plant_code.lookup source_system with
    | some code => .ok (some code)
    | none => .error (.keyError source_system)
  | none => .ok none

/-- A parsed naive datetime, as produced by `datetime.strptime`. -/
structure PyDateTime where
  year : Nat
  month : Nat
  day : Nat
  hour : Nat
  minute : Nat
  second : Nat
deriving DecidableEq, Repr

/-- Gregorian leap-year test (as in Python's `datetime`). -/
def is_leap (y : Nat) : Bool :=
  (y % 4 == 0 && y % 100 != 0) || y % 400 == 0

/-- Days in a month of a given year. -/
def days_in_month (y m : Nat) : Nat :=
  if m == 2 then (if is_leap y then 29 else 28)
  else if m == 4 || m == 6 || m == 9 || m == 11 then 30
  else 31

/-- Days in the given year strictly before month `m`. -/
def days_before_month (y m : Nat) : Nat :=
  (List.range m).foldl (fun acc k => if 1 ≤ k then acc + days_in_month y k else acc) 0

/-- Proleptic-Gregorian ordinal of a date, day 0 being January 1 of year 1
(Python's `datetime.toordinal` minus one). -/
def to_ordinal (dt : PyDateTime) : Nat :=
  (dt.year - 1) * 365 + (dt.year - 1) / 4 - (dt.year - 1) / 100 + (dt.year - 1) / 400
    + days_before_month dt.year dt.month + (dt.day - 1)

/-- Seconds of a naive datetime since the epoch of `to_ordinal`, used to
take differences of datetimes. -/
def dt_seconds (dt : PyDateTime) : Int :=
  (to_ordinal dt : Int) * 86400 + (dt.hour : Int) * 3600 + (dt.minute : Int) * 60 + (dt.second : Int)

/-- Two-digit decimal value of two ASCII digit characters. -/
def digit2 (a b : Char) : Option Nat :=
  if a.isDigit && b.isDigit then some ((a.toNat - 48) * 10 + (b.toNat - 48)) else none

/-- Four-digit decimal value of four ASCII digit characters. -/
def digit4 (a b c d : Char) : Option Nat :=
  match digit2 a b, digit2 c d with
  | some hi, some lo => some (hi * 100 + lo)
  | _, _ => none

/-- Range validation performed by the `datetime` constructor: year 1-9999,
month 1-12, day within the month, hour 0-23, minute and second 0-59
(`ValueError` otherwise). -/
def mk_datetime (src : String) (y m d hh mi ss : Nat) : Except PyError PyDateTime :=
  if 1 ≤ y ∧ 1 ≤ m ∧ m ≤ 12 ∧ 1 ≤ d ∧ d ≤ days_in_month y m ∧ hh ≤ 23 ∧ mi ≤ 59 ∧ ss ≤ 59 then
    .ok ⟨y, m, d, hh, mi, ss⟩
  else
    .error (.valueError src)

/-- `datetime.strptime(s, "%Y-%m-%dT%H:%M:%SZ")` for zero-padded
timestamps (CPython's `strptime` additionally accepts non-zero-padded
month/day/hour/minute/second fields, which this payload never carries). -/
def strptime_utc (s : String) : Except PyError PyDateTime :=
  match s.data with
  | [y1, y2, y3, y4, '-', m1, m2, '-', d1, d2, 'T', h1, h2, ':', n1, n2, ':', s1, s2, 'Z'] =>
    match digit4 y1 y2 y3 y4, digit2 m1 m2, digit2 d1 d2, digit2 h1 h2, digit2 n1 n2, digit2 s1 s2 with
    | some y, some m, some d, some hh, some mi, some ss => mk_datetime s y m d hh mi ss
    | _, _, _, _, _, _ => .error (.valueError s)
  | _ => .error (.valueError s)

/-- `datetime.strptime(s, "%Y-%m-%dT%H:%M:%S")`, as `strptime_utc` but
without the trailing `Z`. -/
def strptime_local (s : String) : Except PyError PyDateTime :=
  match s.data with
  | [y1, y2, y3, y4, '-', m1, m2, '-', d1, d2, 'T', h1, h2, ':', n1, n2, ':', s1, s2] =>
    match digit4 y1 y2 y3 y4, digit2 m1 m2, digit2 d1 d2, digit2 h1 h2, digit2 n1 n2, digit2 s1 s2 with
    | some y, some m, some d, some hh, some mi, some ss => mk_datetime s y m d hh mi ss
    | _, _, _, _, _, _ => .error (.valueError s)
  | _ => .error (.valueError s)

/-- Zero-padded two-digit decimal rendering (`%02d`, for values below 100). -/
def pad2 (n : Nat) : String :=
  if n < 10 then "0" ++ toString n else toString n

/-- Python `str(timezone(timedelta(seconds=td)))`: `"UTC"` for a zero
offset, otherwise `"UTC±HH:MM"` with a trailing `":SS"` when the offset has
a seconds part. -/
def tz_name (td : Int) : String :=
  if td == 0 then "UTC"
  else
    let sign := if td < 0 then "-" else "+"
    let a := td.natAbs
    let hh := a / 3600
    let mm := a % 3600 / 60
    let ss := a % 60
    "UTC" ++ sign ++ pad2 hh ++ ":" ++ pad2 mm ++ (if ss == 0 then "" else ":" ++ pad2 ss)

/-- `derive_timezone`: parse both timestamps, form the timedelta, build a
`timezone` from it (`ValueError` unless strictly between -24h and +24h),
and strip `"UTC"` and `":"` from its string form. -/
def derive_timezone (utc_time local_time : String) : Except PyError String := do
  let utc_datetime ← strptime_utc utc_time
  let local_datetime ← strptime_local local_time
  let td : Int := dt_seconds local_datetime - dt_seconds utc_datetime
  if td ≤ -86400 ∨ 86400 ≤ td then
    .error (.valueError "offset must be strictly between -timedelta(hours=24) and timedelta(hours=24)")
  else
    .ok (py_replace (py_replace (tz_name td) "UTC" "") ":" "")

/-- `build_vehicle_attributes` (lines 145-166): pure field
extraction/formatting; `int(orderStatus)` and `derive_timezone` are its
only failure points. -/
def build_vehicle_attributes (v : StardKafkaVehicle) : Except PyError VehicleAttributes := do
  let build_datetime := v.utcCheckpointTimestamp
  let bmw_plant_code ← get_bmw_plant_code v.sapPlantId
  let build_status ← py_int_exc v.orderStatus
  let tzone ← derive_timezone v.utcCheckpointTimestamp v.localCheckpointTimestamp
  .ok {
    Vin := v.vin17,
    SapPlantCode := v.sapPlantId,
    plantCode := bmw_plant_code,
    buildDate := py_replace (py_take build_datetime 10) "-" "",
    buildTime := py_replace (py_slice build_datetime 11 19) ":" "",
    buildTimestamp := py_replace v.utcBuildTimestamp "Z" ".000Z",
    modelCode := v.modelCode,
    buildStatus := build_status,
    orderNumber := v.orderNumber,
    checkpointTimestamp := py_replace build_datetime "Z" ".000Z",
    checkpointTimeZone := tzone }

/-- The filter of `build_grouped_materials` (line 138): the sublist of
records whose `plannedOrderId` starts with the vehicle-order prefix
`"VH_"`. -/
def filtered_materials (all_materials : List DemandRecord) : List DemandRecord :=
  all_materials.filter (fun m => py_startswith m.plannedOrderId "VH_")

/-- Append a record to the group holding its `materialNumber`, or open a
new group at the end: one step of filling the `defaultdict(list)` (whose
keys stay in first-seen insertion order). -/
def insert_group (groups : List (String × List DemandRecord)) (m : DemandRecord) :
    List (String × List DemandRecord) :=
  match groups with
  | [] => [(m.materialNumber, [m])]
  | (k, g) :: rest =>
    if k == m.materialNumber then (k, g ++ [m]) :: rest
    else (k, g) :: insert_group rest m

/-- `build_grouped_materials` (lines 136-142): filter, then group by the
raw `materialNumber` string, preserving first-occurrence order of keys and
of records within each group. -/
def build_grouped_materials (v : StardKafkaVehicle) : List (String × List DemandRecord) :=
  (filtered_materials v.materials).foldl insert_group []

/-- The production-step code of a record: `plannedOrderId[0:2]`. -/
def record_step (m : DemandRecord) : String :=
  py_slice m.plannedOrderId 0 2

/-- The step code a `StepNode` carries. -/
def node_step (n : StepNode) : String :=
  n.attributes.productionStep

/-- The derived `(partNumber, changeIndex)` key an `MciNode` carries. -/
def node_key (n : MciNode) : String × Int :=
  (n.attributes.partNumber, n.attributes.changeIndex)

/-- Sum of the `quantity` fields of a list of records. -/
def sum_quantities (ms : List DemandRecord) : Int :=
  (ms.map (fun m => m.quantity)).sum

/-- Dict lookup of an optional key: `KeyError` when absent. -/
def get_key (key : String) : Option String → Except PyError String
  | some v => .ok v
  | none => .error (.keyError key)

/-- `build_vehicle_production_step` (lines 94-106): a new step node seeded
from one record; the four provenance keys are accessed unconditionally, so
a record missing one raises `KeyError`. -/
def build_vehicle_production_step (grouped_material : DemandRecord) (production_step : String) :
    Except PyError StepNode := do
  let rp ← get_key "reservationPosition" grouped_material.reservationPosition
  let rn ← get_key "reservationNumber" grouped_material.reservationNumber
  let pr ← get_key "peggedRequirement" grouped_material.peggedRequirement
  let ic ← get_key "itemCategory" grouped_material.itemCategory
  .ok {
    type := "vehicleProductionStep",
    attributes := { productionStep := production_step },
    relationshipAttributes := {
      quantity := grouped_material.quantity,
      plannedOrderNumber := grouped_material.plannedOrderId,
      reservationItemNumber := rp,
      reservationNumber := rn,
      materialGroupTopLevel := pr,
      itemCategory := ic } }

/-- Add `q` to a step node's quantity, leaving every other field alone
(the in-place `+=` of `prod_step_exist_status`). -/
def update_step_quantity (n : StepNode) (q : Int) : StepNode :=
  { n with relationshipAttributes :=
      { n.relationshipAttributes with quantity := n.relationshipAttributes.quantity + q } }

/-- `prod_step_exist_status` (lines 123-133): scan the step list for the
record's step code; on the first match add the record's quantity to that
node and stop with `True`; a non-matching node sets the flag to `False`
before moving on, and an empty list returns the caller's flag unchanged.
The mutated list is returned alongside the flag. -/
def prod_step_exist_status (grouped_material : DemandRecord) (production_step : String) :
    List StepNode → Bool → List StepNode × Bool
  | [], production_step_exists => ([], production_step_exists)
  | n :: rest, _ =>
    if n.attributes.productionStep == production_step then
      (update_step_quantity n grouped_material.quantity :: rest, true)
    else
      let (rest', b) := prod_step_exist_status grouped_material production_step rest false
      (n :: rest', b)

/-- The per-group inner loop of `build_material_change_indexes`
(lines 54-61), threading the step list and the `production_step_exists`
flag through the group's records. -/
def build_vehicle_production_steps_go (recs : List DemandRecord)
    (vehicle_production_steps : List StepNode) (production_step_exists : Bool) :
    Except PyError (List StepNode) :=
  match recs with
  | [] => .ok vehicle_production_steps
  | grouped_material :: rest =>
    let production_step := py_slice grouped_material.plannedOrderId 0 2
    let scan :=
      prod_step_exist_status grouped_material production_step vehicle_production_steps
        production_step_exists
    if scan.2 then
      build_vehicle_production_steps_go rest scan.1 scan.2
    else do
      let vehicle_production_step ← build_vehicle_production_step grouped_material production_step
      build_vehicle_production_steps_go rest (scan.1 ++ [vehicle_production_step]) scan.2

/-- The full per-group step reduction: the inner loop started on an empty
step list with the flag `False` (both are reset for every group). -/
def build_vehicle_production_steps (recs : List DemandRecord) : Except PyError (List StepNode) :=
  build_vehicle_production_steps_go recs [] false

/-- `get_material_change_index` (lines 109-120): first node of the output
list whose `(partNumber, changeIndex)` equals the key derived from
`material_number`. The predicate compares the part number first and only
then parses `material_number[7:9]`, so the parse (and its possible
`ValueError`) happens only on reaching a node whose part number matches;
an empty list returns `None` without parsing. -/
def get_material_change_index (material_change_indexes : List MciNode) (material_number : String) :
    Except PyError (Option MciNode) :=
  match material_change_indexes with
  | [] => .ok none
  | n :: rest =>
    if py_slice material_number 0 7 == n.attributes.partNumber then do
      let ci ← py_int_exc (py_slice material_number 7 9)
      if ci == n.attributes.changeIndex then .ok (some n)
      else get_material_change_index rest material_number
    else get_material_change_index rest material_number

/-- `build_material_change_index` (lines 78-91): a fresh node from the
group's derived key, total quantity, and step sequence; parsing
`material_number[7:9]` is its only failure point. -/
def build_material_change_index (grouped_materials : List DemandRecord) (material_number : String)
    (vehicle_production_steps : List StepNode) : Except PyError MciNode := do
  let ci ← py_int_exc (py_slice material_number 7 9)
  .ok {
    type := "materialChangeIndex",
    attributes := { partNumber := py_slice material_number 0 7, changeIndex := ci },
    relationshipAttributes := { quantity := sum_quantities grouped_materials },
    relationshipChildren := vehicle_production_steps }

/-- The merge mutation of lines 65-70, made explicit: add `dq` to the
quantity of the first node whose key is `(part, ci)` and append `steps` to
its children verbatim (no per-step deduplication); every other node is
untouched. The node `get_material_change_index` returned is exactly the
first such node, so updating it in place is updating this list here. -/
def add_group_to_node (part : String) (ci : Int) (dq : Int) (steps : List StepNode) :
    List MciNode → List MciNode
  | [] => []
  | n :: rest =>
    if n.attributes.partNumber == part && n.attributes.changeIndex == ci then
      { n with
        relationshipAttributes := { quantity := n.relationshipAttributes.quantity + dq },
        relationshipChildren := n.relationshipChildren ++ steps } :: rest
    else n :: add_group_to_node part ci dq steps rest

/-- The outer loop of `build_material_change_indexes` (lines 53-74) over
the remaining groups, carrying the output list built so far. -/
def build_material_change_indexes_go (groups : List (String × List DemandRecord))
    (material_change_indexes : List MciNode) : Except PyError (List MciNode) :=
  match groups with
  | [] => .ok material_change_indexes
  | (material_number, grouped_materials) :: rest => do
    let vehicle_production_steps ← build_vehicle_production_steps grouped_materials
    let found ← get_material_change_index material_change_indexes material_number
    match found with
    | some node =>
      build_material_change_indexes_go rest
        (add_group_to_node node.attributes.partNumber node.attributes.changeIndex
          (sum_quantities grouped_materials) vehicle_production_steps material_change_indexes)
    | none => do
      let node ← build_material_change_index grouped_materials material_number
        vehicle_production_steps
      build_material_change_indexes_go rest (material_change_indexes ++ [node])

/-- `build_material_change_indexes` (lines 51-75). -/
def build_material_change_indexes (groups : List (String × List DemandRecord)) :
    Except PyError (List MciNode) :=
  build_material_change_indexes_go groups []

/-- The body construction of `process` (lines 39-47): vehicle attributes,
grouping, aggregation, and document assembly. Transport headers and the
ingress state (lines 38, 169-177) are external collaborators and carry no
algorithmic content. -/
def build_body (v : StardKafkaVehicle) : Except PyError Body := do
  let vehicle_attributes ← build_vehicle_attributes v
  let groups := build_grouped_materials v
  let material_change_indexes ← build_material_change_indexes groups
  .ok { type := "vehicle", attributes := vehicle_attributes, children := material_change_indexes }

/-- `process` (lines 34-48) on the payload argument: a missing payload
raises `DvfException("Empty payload.")`, otherwise the body is built. -/
def process (stard_kafka_vehicles : Option StardKafkaVehicle) : Except PyError Body :=
  match stard_kafka_vehicles with
  | none => .error (.dvfException "Empty payload.")
  | some v => build_body v

/-- Append `a` unless it is already present: one step of first-occurrence
deduplication. -/
def add_first_occur {α : Type _} [DecidableEq α] (acc : List α) (a : α) : List α :=
  if a ∈ acc then acc else acc ++ [a]

/-- First-occurrence deduplication: the distinct elements of `l` in the
order in which they first appear. -/
def first_occurs {α : Type _} [DecidableEq α] (l : List α) : List α :=
  l.foldl add_first_occur []

/-- The total quantity of a list of materialChangeIndex nodes. -/
def total_quantity (mcis : List MciNode) : Int :=
  (mcis.map (fun n => n.relationshipAttributes.quantity)).sum

/-- The total quantity of a grouped record list, group by group. -/
def group_total (groups : List (String × List DemandRecord)) : Int :=
  (groups.map (fun g => sum_quantities g.2)).sum

/-- The `(partNumber, changeIndex)` key derived from a raw material
number, `ValueError` when the change-index slice does not parse. -/
def derived_key (material_number : String) : Except PyError (String × Int) := do
  let ci ← py_int_exc (py_slice material_number 7 9)
  .ok (py_slice material_number 0 7, ci)

/-- The derived keys of a list of groups, in order; the first unparsable
change-index slice aborts with its `ValueError`. -/
def derived_keys : List (String × List DemandRecord) → Except PyError (List (String × Int))
  | [] => .ok []
  | g :: rest => do
    let k ← derived_key g.1
    let ks ← derived_keys rest
    .ok (k :: ks)

/-- All fields of a step node other than the accumulated quantity agree:
the shape in which passthrough attributes survive quantity accumulation. -/
def same_passthrough (n n0 : StepNode) : Prop :=
  n.type = n0.type ∧ n.attributes = n0.attributes ∧
  n.relationshipAttributes.plannedOrderNumber = n0.relationshipAttributes.plannedOrderNumber ∧
  n.relationshipAttributes.reservationItemNumber = n0.relationshipAttributes.reservationItemNumber ∧
  n.relationshipAttributes.reservationNumber = n0.relationshipAttributes.reservationNumber ∧
  n.relationshipAttributes.materialGroupTopLevel = n0.relationshipAttributes.materialGroupTopLevel ∧
  n.relationshipAttributes.itemCategory = n0.relationshipAttributes.itemCategory

/-- Add `q` to the quantity of the first node carrying step code `s`,
leaving everything else unchanged: the net effect of a successful
`prod_step_exist_status` scan on the step list. -/
def add_quantity_first (s : String) (q : Int) : List StepNode → List StepNode
  | [] => []
  | n :: rest =>
    if node_step n == s then update_step_quantity n q :: rest
    else n :: add_quantity_first s q rest

/-- Invariant of the per-group inner loop after processing the records
`p`: the step list carries the distinct step codes of `p` in
first-occurrence order, and each node holds the accumulated quantity of
its step's records together with the passthrough fields of the first such
record. -/
def step_inv (p : List DemandRecord) (steps : List StepNode) : Prop :=
  steps.map node_step = first_occurs (p.map record_step) ∧
  ∀ n ∈ steps,
    n.relationshipAttributes.quantity =
      sum_quantities (p.filter (fun x => record_step x == node_step n)) ∧
    ∃ r, p.find? (fun x => record_step x == node_step n) = some r ∧
      ∃ n0, build_vehicle_production_step r (record_step r) = .ok n0 ∧ same_passthrough n n0

/-- Sample record of Scenario A: step code `"VH"`, derived key
`("1234567", 1)`. -/
def recA : DemandRecord :=
  { materialNumber := "123456701", quantity := 2, plannedOrderId := "VH_00123",
    reservationPosition := some "10", reservationNumber := some "RES1",
    peggedRequirement := some "PEG", itemCategory := some "L" }

/-- Second Scenario-A record: same material and step, quantity 3. -/
def recB : DemandRecord := { recA with quantity := 3 }

/-- Sample payload with the two Scenario-A records and well-formed
vehicle-level fields. -/
def vW : StardKafkaVehicle :=
  { vin17 := "WBA12345678901234",
    utcCheckpointTimestamp := "2023-05-17T12:00:00Z",
    localCheckpointTimestamp := "2023-05-17T14:00:00",
    utcBuildTimestamp := "2023-05-17T11:30:00Z",
    sapPlantId := "A130", modelCode := "G20", orderStatus := "5",
    orderNumber := "ORD1", materials := [recA, recB] }

/-- The step node accumulated from `recA` and `recB`. -/
def stepAB : StepNode :=
  { type := "vehicleProductionStep",
    attributes := { productionStep := "VH" },
    relationshipAttributes :=
      { quantity := 5, plannedOrderNumber := "VH_00123", reservationItemNumber := "10",
        reservationNumber := "RES1", materialGroupTopLevel := "PEG", itemCategory := "L" } }

/-- The step node seeded from `recA` alone. -/
def stepA : StepNode :=
  { stepAB with relationshipAttributes := { stepAB.relationshipAttributes with quantity := 2 } }

/-- The merged material-change-index node of the sample payload. -/
def mciA : MciNode :=
  { type := "materialChangeIndex",
    attributes := { partNumber := "1234567", changeIndex := 1 },
    relationshipAttributes := { quantity := 5 },
    relationshipChildren := [stepAB] }

/-- The vehicle attributes of the sample payload. -/
def attrsW : VehicleAttributes :=
  { Vin := "WBA12345678901234", SapPlantCode := "A130", plantCode := some "03.10",
    buildDate := "20230517", buildTime := "120000",
    buildTimestamp := "2023-05-17T11:30:00.000Z", modelCode := "G20", buildStatus := 5,
    orderNumber := "ORD1", checkpointTimestamp := "2023-05-17T12:00:00.000Z",
    checkpointTimeZone := "+0200" }

/-- The full output document of the sample payload. -/
def bodyW : Body := { type := "vehicle", attributes := attrsW, children := [mciA] }

/-- A record with an 8-character material number whose final character is
numeric: the change-index slice `[7:9]` is the single digit `"8"`. -/
def rec8 : DemandRecord := { recA with materialNumber := "12345678", quantity := 1 }

/-- Payload carrying only `rec8`. -/
def v8 : StardKafkaVehicle := { vW with materials := [rec8] }

/-- The step node seeded from `rec8`. -/
def step8 : StepNode :=
  { stepAB with relationshipAttributes := { stepAB.relationshipAttributes with quantity := 1 } }

/-- The silently coerced node produced for `rec8`: key `("1234567", 8)`. -/
def mci8 : MciNode :=
  { type := "materialChangeIndex",
    attributes := { partNumber := "1234567", changeIndex := 8 },
    relationshipAttributes := { quantity := 1 },
    relationshipChildren := [step8] }

/-- The output document the code produces for `v8` — no error is raised. -/
def body8 : Body := { type := "vehicle", attributes := attrsW, children := [mci8] }

/-- A record with a 7-character material number: the change-index slice is
empty and unparsable. -/
def rec7 : DemandRecord := { recA with materialNumber := "1234567" }

/-- Payload carrying only `rec7`. -/
def v7 : StardKafkaVehicle := { vW with materials := [rec7] }

/-- A record missing the `itemCategory` provenance key. -/
def recM : DemandRecord := { recA with itemCategory := none }

/-- Payload carrying only `recM`. -/
def v9 : StardKafkaVehicle := { vW with materials := [recM] }

/-- Payload whose `sapPlantId` is not a key of the plant table. -/
def v10 : StardKafkaVehicle := { vW with sapPlantId := "XXXX" }

/-- The vehicle attributes produced for `v10`: `plantCode` is `None`. -/
def attrs10 : VehicleAttributes := { attrsW with SapPlantCode := "XXXX", plantCode := none }

/-- The output document for `v10`. -/
def body10 : Body := { type := "vehicle", attributes := attrs10, children := [mciA] }

/-- Payload with no materials at all: the filtered list is empty. -/
def v0 : StardKafkaVehicle := { vW with materials := [] }

section ListLemmas

variable {α : Type _} [DecidableEq α]

theorem mem_foldl_add_first_occur (l : List α) :
    ∀ (acc : List α) (x : α), x ∈ l.foldl add_first_occur acc ↔ x ∈ acc ∨ x ∈ l := by
  induction l with
  | nil => intro acc x; simp
  | cons a t ih =>
    intro acc x
    rw [List.foldl_cons, ih]
    unfold add_first_occur
    by_cases ha : a ∈ acc
    · simp only [if_pos ha, List.mem_cons]
      constructor
      · rintro (h | h)
        · exact Or.inl h
        · exact Or.inr (Or.inr h)
      · rintro (h | h | h)
        · exact Or.inl h
        · exact Or.inl (h ▸ ha)
        · exact Or.inr h
    · simp only [if_neg ha, List.mem_append, List.mem_singleton, List.mem_cons]
      tauto

theorem nodup_foldl_add_first_occur (l : List α) :
    ∀ acc : List α, acc.Nodup → (l.foldl add_first_occur acc).Nodup := by
  induction l with
  | nil => intro acc h; simpa using h
  | cons a t ih =>
    intro acc h
    rw [List.foldl_cons]
    apply ih
    unfold add_first_occur
    by_cases ha : a ∈ acc
    · simpa [ha] using h
    · rw [if_neg ha, List.nodup_append]
      refine ⟨h, List.nodup_singleton a, ?_⟩
      intro x hx hxa
      rw [List.mem_singleton] at hxa
      exact ha (hxa ▸ hx)

theorem mem_first_occurs (l : List α) (x : α) : x ∈ first_occurs l ↔ x ∈ l := by
  rw [first_occurs, mem_foldl_add_first_occur]
  simp

theorem nodup_first_occurs (l : List α) : (first_occurs l).Nodup :=
  nodup_foldl_add_first_occur l [] List.nodup_nil

theorem first_occurs_append_one (l : List α) (a : α) :
    first_occurs (l ++ [a]) = add_first_occur (first_occurs l) a := by
  rw [first_occurs, List.foldl_append, List.foldl_cons, List.foldl_nil]
  rfl

end ListLemmas

theorem node_step_update (n : StepNode) (q : Int) :
    node_step (update_step_quantity n q) = node_step n := rfl

theorem quantity_update (n : StepNode) (q : Int) :
    (update_step_quantity n q).relationshipAttributes.quantity =
      n.relationshipAttributes.quantity + q := rfl

theorem same_passthrough_update (n n0 : StepNode) (q : Int) (h : same_passthrough n n0) :
    same_passthrough (update_step_quantity n q) n0 := h

/-- A scan over a step list containing the step code finds the first
matching node, adds the record's quantity there, and reports `True`. -/
theorem prod_step_found (gm : DemandRecord) (s : String) :
    ∀ (steps : List StepNode) (flag : Bool), (∃ n ∈ steps, node_step n = s) →
      prod_step_exist_status gm s steps flag = (add_quantity_first s gm.quantity steps, true) := by
  intro steps
  induction steps with
  | nil => intro flag h; simp at h
  | cons n rest ih =>
    intro flag h
    by_cases hn : node_step n = s
    · simp [prod_step_exist_status, add_quantity_first, node_step] at hn ⊢
      simp [hn]
    · have h' : ∃ m ∈ rest, node_step m = s := by
        rcases h with ⟨m, hm, hms⟩
        rcases List.mem_cons.mp hm with rfl | hm'
        · exact absurd hms hn
        · exact ⟨m, hm', hms⟩
      have hb : (n.attributes.productionStep == s) = false := by
        simpa [node_step] using hn
      simp only [prod_step_exist_status, hb, Bool.false_eq_true, if_neg, ih false h',
        add_quantity_first]
      simp [node_step, hb]

/-- A scan over a step list not containing the step code leaves the list
unchanged and reports `False` (provided the flag passed into an empty scan
is already `False`, which the loop guarantees). -/
theorem prod_step_not_found (gm : DemandRecord) (s : String) :
    ∀ (steps : List StepNode) (flag : Bool), (∀ n ∈ steps, node_step n ≠ s) →
      (steps = [] → flag = false) →
      prod_step_exist_status gm s steps flag = (steps, false) := by
  intro steps
  induction steps with
  | nil =>
    intro flag _ hflag
    simp [prod_step_exist_status, hflag rfl]
  | cons n rest ih =>
    intro flag h hflag
    have hn : node_step n ≠ s := h n (List.mem_cons_self n rest)
    have hb : (n.attributes.productionStep == s) = false := by
      simpa [node_step] using hn
    have hrest : prod_step_exist_status gm s rest false = (rest, false) := by
      apply ih false (fun m hm => h m (List.mem_cons_of_mem n hm))
      intro; rfl
    simp [prod_step_exist_status, hb, hrest]

@[simp] theorem except_bind_ok {ε α β : Type _} (a : α) (f : α → Except ε β) :
    (Except.ok a : Except ε α) >>= f = f a := rfl

@[simp] theorem except_bind_err {ε α β : Type _} (e : ε) (f : α → Except ε β) :
    (Except.error e : Except ε α) >>= f = (.error e : Except ε β) := rfl

theorem record_step_def (m : DemandRecord) : py_slice m.plannedOrderId 0 2 = record_step m := rfl

theorem filter_one {β : Type _} (p : β → Bool) (a : β) :
    List.filter p [a] = if p a then [a] else [] := by
  rw [List.filter_cons, List.filter_nil]

theorem find_one {β : Type _} (p : β → Bool) (a : β) :
    List.find? p [a] = if p a then some a else none := by
  cases h : p a <;> simp [List.find?_cons, h]

theorem sum_quantities_append (l1 l2 : List DemandRecord) :
    sum_quantities (l1 ++ l2) = sum_quantities l1 + sum_quantities l2 := by
  simp [sum_quantities]

theorem length_add_quantity_first (s : String) (q : Int) :
    ∀ l : List StepNode, (add_quantity_first s q l).length = l.length := by
  intro l
  induction l with
  | nil => rfl
  | cons n rest ih =>
    by_cases h : node_step n = s
    · simp [add_quantity_first, h]
    · simp [add_quantity_first, h, ih]

/-- When step codes are distinct (the reachable case), updating the first
match is updating every match. -/
theorem add_quantity_first_eq_map (s : String) (q : Int) :
    ∀ l : List StepNode, (l.map node_step).Nodup →
      add_quantity_first s q l =
        l.map (fun n => if node_step n = s then update_step_quantity n q else n) := by
  intro l
  induction l with
  | nil => intro _; rfl
  | cons n rest ih =>
    intro hnd
    rw [List.map_cons, List.nodup_cons] at hnd
    by_cases h : node_step n = s
    · have hrest : rest.map
          (fun n => if node_step n = s then update_step_quantity n q else n) = rest := by
        have : ∀ x ∈ rest, (if node_step x = s then update_step_quantity x q else x) = id x := by
          intro x hx
          have : node_step x ≠ s := by
            intro hxs
            exact hnd.1 (h ▸ hxs ▸ List.mem_map_of_mem node_step hx)
          simp [this]
        rw [List.map_congr_left this, List.map_id]
      simp [add_quantity_first, h, hrest]
    · simp [add_quantity_first, h, ih hnd.2]

/-- Inversion of a successful `build_vehicle_production_step`: the node's
key is the given step code and its seeded quantity is the record's. -/
theorem build_step_ok_inv (gm : DemandRecord) (s : String) (n1 : StepNode)
    (h : build_vehicle_production_step gm s = .ok n1) :
    n1.attributes = ⟨s⟩ ∧ n1.relationshipAttributes.quantity = gm.quantity := by
  unfold build_vehicle_production_step at h
  cases hrp : gm.reservationPosition with
  | none => rw [hrp] at h; exact Except.noConfusion h
  | some rp =>
    rw [hrp] at h
    cases hrn : gm.reservationNumber with
    | none => rw [hrn] at h; exact Except.noConfusion h
    | some rn =>
      rw [hrn] at h
      cases hpr : gm.peggedRequirement with
      | none => rw [hpr] at h; exact Except.noConfusion h
      | some pr =>
        rw [hpr] at h
        cases hic : gm.itemCategory with
        | none => rw [hic] at h; exact Except.noConfusion h
        | some ic =>
          rw [hic] at h
          injection h with h'
          rw [← h']
          exact ⟨rfl, rfl⟩

/-- One iteration of the inner loop on a record whose step code already
has a node: the quantity is folded into the (first, hence unique) matching
node and no node is appended. -/
theorem steps_go_found (gm : DemandRecord) (rest : List DemandRecord)
    (steps : List StepNode) (flag : Bool)
    (hex : ∃ n ∈ steps, node_step n = record_step gm) :
    build_vehicle_production_steps_go (gm :: rest) steps flag =
      build_vehicle_production_steps_go rest
        (add_quantity_first (record_step gm) gm.quantity steps) true := by
  have hscan := prod_step_found gm (record_step gm) steps flag hex
  simp only [build_vehicle_production_steps_go]
  rw [record_step_def, hscan]
  rfl

/-- One iteration of the inner loop on a record whose step code has no
node yet and whose seeding succeeds: a new node is appended at the end. -/
theorem steps_go_new (gm : DemandRecord) (rest : List DemandRecord)
    (steps : List StepNode) (flag : Bool) (n1 : StepNode)
    (hex : ∀ n ∈ steps, node_step n ≠ record_step gm)
    (hflag : steps = [] → flag = false)
    (hb : build_vehicle_production_step gm (record_step gm) = .ok n1) :
    build_vehicle_production_steps_go (gm :: rest) steps flag =
      build_vehicle_production_steps_go rest (steps ++ [n1]) false := by
  have hscan := prod_step_not_found gm (record_step gm) steps flag hex hflag
  simp only [build_vehicle_production_steps_go]
  rw [record_step_def, hscan, hb]
  rfl

/-- One iteration of the inner loop on a record whose step code has no
node yet and whose seeding fails: the error aborts the whole group. -/
theorem steps_go_err (gm : DemandRecord) (rest : List DemandRecord)
    (steps : List StepNode) (flag : Bool) (e : PyError)
    (hex : ∀ n ∈ steps, node_step n ≠ record_step gm)
    (hflag : steps = [] → flag = false)
    (hb : build_vehicle_production_step gm (record_step gm) = .error e) :
    build_vehicle_production_steps_go (gm :: rest) steps flag = .error e := by
  have hscan := prod_step_not_found gm (record_step gm) steps flag hex hflag
  simp only [build_vehicle_production_steps_go]
  rw [record_step_def, hscan, hb]
  rfl

/-- The master invariant of the inner loop: running the loop over the
remaining records `recs` from a state reflecting the processed records `p`
yields, on success, a state reflecting `p ++ recs`. -/
theorem build_steps_go_spec :
    ∀ (recs p : List DemandRecord) (steps : List StepNode) (flag : Bool) (res : List StepNode),
      step_inv p steps → (steps = [] → flag = false) →
      build_vehicle_production_steps_go recs steps flag = .ok res →
      step_inv (p ++ recs) res := by
  intro recs
  induction recs with
  | nil =>
    intro p steps flag res hinv _ h
    simp only [build_vehicle_production_steps_go, Except.ok.injEq] at h
    rw [List.append_nil, ← h]
    exact hinv
  | cons gm rest ih =>
    intro p steps flag res hinv hflag h
    have hsplit : p ++ gm :: rest = (p ++ [gm]) ++ rest := by simp
    rw [hsplit]
    have hcodes := hinv.1
    have hnd : (steps.map node_step).Nodup := by
      rw [hcodes]; exact nodup_first_occurs _
    by_cases hex : ∃ n ∈ steps, node_step n = record_step gm
    · -- the step code already has a node: quantity is accumulated in place
      rw [steps_go_found gm rest steps flag hex] at h
      refine ih (p ++ [gm]) _ true res ?_ ?_ h
      · -- the invariant extends across the accumulating record
        rw [add_quantity_first_eq_map _ _ _ hnd]
        constructor
        · rw [List.map_map]
          have hmap : steps.map (node_step ∘ fun n =>
              if node_step n = record_step gm then update_step_quantity n gm.quantity else n) =
              steps.map node_step := by
            apply List.map_congr_left
            intro n _
            by_cases hn : node_step n = record_step gm <;> simp [Function.comp, hn, node_step_update]
          rw [hmap, hcodes]
          simp only [List.map_append, List.map_cons, List.map_nil]
          rw [first_occurs_append_one]
          have hmem : record_step gm ∈ first_occurs (p.map record_step) := by
            rw [← hcodes]
            rcases hex with ⟨n, hn, hns⟩
            exact hns ▸ List.mem_map_of_mem node_step hn
          simp [add_first_occur, hmem]
        · intro n' hn'
          rcases List.mem_map.mp hn' with ⟨n, hn, rfl⟩
          rcases hinv.2 n hn with ⟨hq, r, hfind, n0, hbuild, hpass⟩
          by_cases hns : node_step n = record_step gm
          · simp only [if_pos hns]
            refine ⟨?_, r, ?_, n0, hbuild, same_passthrough_update n n0 _ hpass⟩
            · have hgm : (record_step gm == node_step n) = true := by
                simp [hns]
              rw [quantity_update, node_step_update, hq, List.filter_append,
                sum_quantities_append, filter_one, if_pos hgm]
              simp [sum_quantities]
            · rw [node_step_update, List.find?_append, hfind]
              rfl
          · simp only [if_neg hns]
            refine ⟨?_, r, ?_, n0, hbuild, hpass⟩
            · have hgm : (record_step gm == node_step n) = false := by
                simp only [beq_eq_false_iff_ne]
                exact fun h' => hns h'.symm
              rw [hq, List.filter_append, filter_one, if_neg (by rw [hgm]; exact Bool.false_ne_true),
                List.append_nil]
            · rw [List.find?_append, hfind]
              rfl
      · intro hnil
        exfalso
        rcases hex with ⟨n, hn, -⟩
        have hlen : steps.length = 0 := by
          rw [← length_add_quantity_first (record_step gm) gm.quantity steps, hnil]
          rfl
        rw [List.length_eq_zero] at hlen
        subst hlen
        exact List.not_mem_nil n hn
    · -- a fresh step code: a new node is appended
      push_neg at hex
      cases hb : build_vehicle_production_step gm (record_step gm) with
      | error e =>
        rw [steps_go_err gm rest steps flag e hex hflag hb] at h
        exact Except.noConfusion h
      | ok n1 =>
        rw [steps_go_new gm rest steps flag n1 hex hflag hb] at h
        have hkey := build_step_ok_inv gm _ n1 hb
        have hstep1 : node_step n1 = record_step gm := by
          rw [node_step, hkey.1]
        have hnotp : ∀ x ∈ p, record_step x ≠ record_step gm := by
          intro x hx hxs
          have hmem : record_step gm ∈ first_occurs (p.map record_step) :=
            (mem_first_occurs _ _).mpr (hxs ▸ List.mem_map_of_mem record_step hx)
          rw [← hcodes] at hmem
          rcases List.mem_map.mp hmem with ⟨n, hn, hns⟩
          exact hex n hn hns
        refine ih (p ++ [gm]) _ false res ⟨?_, ?_⟩ (fun _ => rfl) h
        · rw [List.map_append, hcodes]
          simp only [List.map_append, List.map_cons, List.map_nil]
          rw [first_occurs_append_one]
          have hnmem : record_step gm ∉ first_occurs (p.map record_step) := by
            rw [← hcodes]
            intro hmem
            rcases List.mem_map.mp hmem with ⟨n, hn, hns⟩
            exact hex n hn hns
          simp [add_first_occur, hnmem, hstep1]
        · intro n' hn'
          rcases List.mem_append.mp hn' with hn' | hn'
          · rcases hinv.2 n' hn' with ⟨hq, r, hfind, n0, hbuild, hpass⟩
            have hne : node_step n' ≠ record_step gm := hex n' hn'
            refine ⟨?_, r, ?_, n0, hbuild, hpass⟩
            · have hgm : (record_step gm == node_step n') = false := by
                simp only [beq_eq_false_iff_ne]
                exact fun h' => hne h'.symm
              rw [hq, List.filter_append, filter_one, if_neg (by rw [hgm]; exact Bool.false_ne_true),
                List.append_nil]
            · rw [List.find?_append, hfind]
              rfl
          · rw [List.mem_singleton] at hn'
            rw [hn']
            refine ⟨?_, gm, ?_, n1, hb, ⟨rfl, rfl, rfl, rfl, rfl, rfl, rfl⟩⟩
            · have hp : List.filter (fun x => record_step x == node_step n1) p = [] := by
                rw [List.filter_eq_nil_iff]
                intro x hx
                simp only [hstep1, beq_eq_false_iff_ne, ne_eq, Bool.not_eq_true,
                  beq_eq_false_iff_ne]
                exact hnotp x hx
              have hgm : (record_step gm == node_step n1) = true := by
                simp [hstep1]
              rw [hkey.2, List.filter_append, hp, filter_one, if_pos hgm]
              simp [sum_quantities]
            · have hp : p.find? (fun x => record_step x == node_step n1) = none := by
                rw [List.find?_eq_none]
                intro x hx
                simp only [hstep1, beq_iff_eq]
                exact hnotp x hx
              have hgm : (record_step gm == node_step n1) = true := by
                simp [hstep1]
              rw [List.find?_append, hp, find_one, if_pos hgm]
              rfl

/-- `build_vehicle_production_steps` satisfies the per-group invariant. -/
theorem build_steps_spec (recs : List DemandRecord) (res : List StepNode)
    (h : build_vehicle_production_steps recs = .ok res) : step_inv recs res := by
  have := build_steps_go_spec recs [] [] false res ⟨rfl, by simp⟩ (fun _ => rfl) h
  simpa using this

/-- A found node of `get_material_change_index` is a member of the list
and carries exactly the derived key of the material number (whose
change-index slice therefore parsed). -/
theorem get_some_props : ∀ (acc : List MciNode) (mn : String) (node : MciNode),
    get_material_change_index acc mn = .ok (some node) →
    node ∈ acc ∧ py_slice mn 0 7 = node.attributes.partNumber ∧
      py_int_exc (py_slice mn 7 9) = .ok node.attributes.changeIndex := by
  intro acc
  induction acc with
  | nil =>
    intro mn node h
    rw [get_material_change_index] at h
    exact Option.noConfusion (Except.ok.inj h)
  | cons m rest ih =>
    intro mn node h
    rw [get_material_change_index] at h
    by_cases hpre : (py_slice mn 0 7 == m.attributes.partNumber) = true
    · rw [if_pos hpre] at h
      cases hci : py_int_exc (py_slice mn 7 9) with
      | error e => rw [hci] at h; exact Except.noConfusion h
      | ok ci =>
        rw [hci] at h
        simp only [except_bind_ok] at h
        by_cases hc : (ci == m.attributes.changeIndex) = true
        · rw [if_pos hc] at h
          have hm := Option.some.inj (Except.ok.inj h)
          subst hm
          exact ⟨List.mem_cons_self m rest, beq_iff_eq.mp hpre,
            congrArg Except.ok (beq_iff_eq.mp hc)⟩
        · rw [if_neg hc] at h
          rcases ih mn node h with ⟨hmem, hp, hc2⟩
          exact ⟨List.mem_cons_of_mem m hmem, hp, hci ▸ hc2⟩
    · rw [if_neg hpre] at h
      rcases ih mn node h with ⟨hmem, hp, hc2⟩
      exact ⟨List.mem_cons_of_mem m hmem, hp, hc2⟩

/-- When the change-index slice parses and some node carries the derived
key, the search succeeds and returns a node with that key. -/
theorem get_found : ∀ (acc : List MciNode) (mn : String) (ci : Int),
    py_int_exc (py_slice mn 7 9) = .ok ci →
    (∃ n ∈ acc, node_key n = (py_slice mn 0 7, ci)) →
    ∃ node, get_material_change_index acc mn = .ok (some node) ∧
      node_key node = (py_slice mn 0 7, ci) := by
  intro acc
  induction acc with
  | nil => intro mn ci _ h; simp at h
  | cons m rest ih =>
    intro mn ci hci h
    rw [get_material_change_index]
    by_cases hpre : (py_slice mn 0 7 == m.attributes.partNumber) = true
    · rw [if_pos hpre, hci]
      simp only [except_bind_ok]
      by_cases hc : (ci == m.attributes.changeIndex) = true
      · refine ⟨m, by rw [if_pos hc], ?_⟩
        rw [node_key, ← beq_iff_eq.mp hpre, ← beq_iff_eq.mp hc]
      · rw [if_neg hc]
        apply ih mn ci hci
        rcases h with ⟨n, hn, hkey⟩
        rcases List.mem_cons.mp hn with rfl | hn'
        · exfalso
          apply hc
          rw [beq_iff_eq]
          have := congrArg Prod.snd hkey
          simpa [node_key] using this.symm
        · exact ⟨n, hn', hkey⟩
    · rw [if_neg hpre]
      apply ih mn ci hci
      rcases h with ⟨n, hn, hkey⟩
      rcases List.mem_cons.mp hn with rfl | hn'
      · exfalso
        apply hpre
        rw [beq_iff_eq]
        have := congrArg Prod.fst hkey
        simpa [node_key] using this.symm
      · exact ⟨n, hn', hkey⟩

/-- When the search comes back empty and the slice parses, no node of the
list carries the derived key. -/
theorem get_none_no_match : ∀ (acc : List MciNode) (mn : String) (ci : Int),
    get_material_change_index acc mn = .ok none →
    py_int_exc (py_slice mn 7 9) = .ok ci →
    ∀ n ∈ acc, node_key n ≠ (py_slice mn 0 7, ci) := by
  intro acc
  induction acc with
  | nil => intro mn ci _ _ n hn; simp at hn
  | cons m rest ih =>
    intro mn ci h hci n hn
    rw [get_material_change_index] at h
    by_cases hpre : (py_slice mn 0 7 == m.attributes.partNumber) = true
    · rw [if_pos hpre, hci] at h
      simp only [except_bind_ok] at h
      by_cases hc : (ci == m.attributes.changeIndex) = true
      · rw [if_pos hc] at h
        exact Option.noConfusion (Except.ok.inj h)
      · rw [if_neg hc] at h
        rcases List.mem_cons.mp hn with rfl | hn'
        · intro hkey
          apply hc
          rw [beq_iff_eq]
          have := congrArg Prod.snd hkey
          simpa [node_key] using this.symm
        · exact ih mn ci h hci n hn'
    · rw [if_neg hpre] at h
      rcases List.mem_cons.mp hn with rfl | hn'
      · intro hkey
        apply hpre
        rw [beq_iff_eq]
        have := congrArg Prod.fst hkey
        simpa [node_key] using this.symm
      · exact ih mn ci h hci n hn'

/-- When the change-index slice does not parse, the search either never
reaches a part-number match (and returns `None`) or raises the
`ValueError` of the parse; it can never find a node. -/
theorem get_bad_parse : ∀ (acc : List MciNode) (mn : String),
    py_int (py_slice mn 7 9) = none →
    get_material_change_index acc mn = .ok none ∨
      ∃ e, get_material_change_index acc mn = .error e := by
  intro acc
  induction acc with
  | nil => intro mn _; exact Or.inl rfl
  | cons m rest ih =>
    intro mn hbad
    rw [get_material_change_index]
    by_cases hpre : (py_slice mn 0 7 == m.attributes.partNumber) = true
    · rw [if_pos hpre]
      have hci : py_int_exc (py_slice mn 7 9) = .error (.valueError (py_slice mn 7 9)) := by
        rw [py_int_exc, hbad]
      rw [hci]
      exact Or.inr ⟨_, rfl⟩
    · rw [if_neg hpre]
      exact ih mn hbad

/-- Inversion of a successful `build_material_change_index`: the node is
exactly the fresh node of the derived key, the group's total quantity, and
the group's step sequence. -/
theorem build_mci_ok_inv (recs : List DemandRecord) (mn : String) (steps : List StepNode)
    (node : MciNode) (h : build_material_change_index recs mn steps = .ok node) :
    ∃ ci, py_int_exc (py_slice mn 7 9) = .ok ci ∧
      node = { type := "materialChangeIndex",
               attributes := { partNumber := py_slice mn 0 7, changeIndex := ci },
               relationshipAttributes := { quantity := sum_quantities recs },
               relationshipChildren := steps } := by
  rw [build_material_change_index] at h
  cases hci : py_int_exc (py_slice mn 7 9) with
  | error e => rw [hci] at h; exact Except.noConfusion h
  | ok ci =>
    rw [hci] at h
    simp only [except_bind_ok] at h
    exact ⟨ci, rfl, (Except.ok.inj h).symm⟩

/-- Updating a node's quantity and children leaves every key in the list
unchanged. -/
theorem agtn_map_key (part : String) (ci dq : Int) (steps : List StepNode) :
    ∀ l : List MciNode, (add_group_to_node part ci dq steps l).map node_key = l.map node_key := by
  intro l
  induction l with
  | nil => rfl
  | cons m rest ih =>
    by_cases hm : (m.attributes.partNumber == part && m.attributes.changeIndex == ci) = true
    · simp only [add_group_to_node, if_pos hm, List.map_cons]
      rfl
    · simp only [add_group_to_node, if_neg hm, List.map_cons, ih]

/-- Merging a group of total quantity `dq` into a list containing its key
raises the list's total quantity by exactly `dq`. -/
theorem agtn_total (part : String) (ci dq : Int) (steps : List StepNode) :
    ∀ l : List MciNode, (∃ n ∈ l, n.attributes.partNumber = part ∧ n.attributes.changeIndex = ci) →
      total_quantity (add_group_to_node part ci dq steps l) = total_quantity l + dq := by
  intro l
  induction l with
  | nil => intro h; simp at h
  | cons m rest ih =>
    intro h
    by_cases hm : (m.attributes.partNumber == part && m.attributes.changeIndex == ci) = true
    · simp only [add_group_to_node, if_pos hm]
      simp [total_quantity]
      ring
    · have hrest : ∃ n ∈ rest, n.attributes.partNumber = part ∧ n.attributes.changeIndex = ci := by
        rcases h with ⟨n, hn, hp, hc⟩
        rcases List.mem_cons.mp hn with rfl | hn'
        · exfalso; apply hm; rw [Bool.and_eq_true, beq_iff_eq, beq_iff_eq]; exact ⟨hp, hc⟩
        · exact ⟨n, hn', hp, hc⟩
      simp only [add_group_to_node, if_neg hm]
      have hr := ih hrest
      simp only [total_quantity, List.map_cons, List.sum_cons] at hr ⊢
      rw [hr]
      ring

/-- One iteration of the outer loop whose group's step reduction fails:
the error aborts the whole aggregation. -/
theorem bmci_go_steps_err (mn : String) (recs : List DemandRecord)
    (rest : List (String × List DemandRecord)) (acc : List MciNode) (e : PyError)
    (hs : build_vehicle_production_steps recs = .error e) :
    build_material_change_indexes_go ((mn, recs) :: rest) acc = .error e := by
  simp only [build_material_change_indexes_go]
  rw [hs]
  rfl

/-- One iteration of the outer loop whose key search fails (an unparsable
change-index slice met a part-number match): the error aborts. -/
theorem bmci_go_get_err (mn : String) (recs : List DemandRecord)
    (rest : List (String × List DemandRecord)) (acc : List MciNode) (steps : List StepNode)
    (e : PyError) (hs : build_vehicle_production_steps recs = .ok steps)
    (hg : get_material_change_index acc mn = .error e) :
    build_material_change_indexes_go ((mn, recs) :: rest) acc = .error e := by
  simp only [build_material_change_indexes_go]
  rw [hs]
  simp only [except_bind_ok]
  rw [hg]
  rfl

/-- One iteration of the outer loop on a group whose derived key is
already present: the group is merged into the found node in place. -/
theorem bmci_go_found (mn : String) (recs : List DemandRecord)
    (rest : List (String × List DemandRecord)) (acc : List MciNode) (steps : List StepNode)
    (node : MciNode) (hs : build_vehicle_production_steps recs = .ok steps)
    (hg : get_material_change_index acc mn = .ok (some node)) :
    build_material_change_indexes_go ((mn, recs) :: rest) acc =
      build_material_change_indexes_go rest
        (add_group_to_node node.attributes.partNumber node.attributes.changeIndex
          (sum_quantities recs) steps acc) := by
  simp only [build_material_change_indexes_go]
  rw [hs]
  simp only [except_bind_ok]
  rw [hg]
  rfl

/-- One iteration of the outer loop on a group whose derived key is new
and parses: a fresh node is appended at the end. -/
theorem bmci_go_new (mn : String) (recs : List DemandRecord)
    (rest : List (String × List DemandRecord)) (acc : List MciNode) (steps : List StepNode)
    (node : MciNode) (hs : build_vehicle_production_steps recs = .ok steps)
    (hg : get_material_change_index acc mn = .ok none)
    (hb : build_material_change_index recs mn steps = .ok node) :
    build_material_change_indexes_go ((mn, recs) :: rest) acc =
      build_material_change_indexes_go rest (acc ++ [node]) := by
  simp only [build_material_change_indexes_go]
  rw [hs]
  simp only [except_bind_ok]
  rw [hg]
  simp only [except_bind_ok]
  rw [hb]
  rfl

/-- One iteration of the outer loop on a group whose derived key is new
but does not parse: the `ValueError` of the fresh node aborts. -/
theorem bmci_go_build_err (mn : String) (recs : List DemandRecord)
    (rest : List (String × List DemandRecord)) (acc : List MciNode) (steps : List StepNode)
    (e : PyError) (hs : build_vehicle_production_steps recs = .ok steps)
    (hg : get_material_change_index acc mn = .ok none)
    (hb : build_material_change_index recs mn steps = .error e) :
    build_material_change_indexes_go ((mn, recs) :: rest) acc = .error e := by
  simp only [build_material_change_indexes_go]
  rw [hs]
  simp only [except_bind_ok]
  rw [hg]
  simp only [except_bind_ok]
  rw [hb]
  rfl

/-- Conservation across the outer loop: every group's total quantity is
added to the output exactly once, whether by merge or by a fresh node. -/
theorem bmci_total : ∀ (groups : List (String × List DemandRecord)) (acc res : List MciNode),
    build_material_change_indexes_go groups acc = .ok res →
    total_quantity res = total_quantity acc + group_total groups := by
  intro groups
  induction groups with
  | nil =>
    intro acc res h
    rw [build_material_change_indexes_go] at h
    rw [← Except.ok.inj h]
    simp [group_total]
  | cons g rest ih =>
    obtain ⟨mn, recs⟩ := g
    intro acc res h
    cases hs : build_vehicle_production_steps recs with
    | error e => rw [bmci_go_steps_err mn recs rest acc e hs] at h; exact Except.noConfusion h
    | ok steps =>
      cases hg : get_material_change_index acc mn with
      | error e =>
        rw [bmci_go_get_err mn recs rest acc steps e hs hg] at h
        exact Except.noConfusion h
      | ok found =>
        cases found with
        | some node =>
          rw [bmci_go_found mn recs rest acc steps node hs hg] at h
          have hprops := get_some_props acc mn node hg
          have hadd := agtn_total node.attributes.partNumber node.attributes.changeIndex
            (sum_quantities recs) steps acc ⟨node, hprops.1, rfl, rfl⟩
          rw [ih _ res h, hadd]
          simp only [group_total, List.map_cons, List.sum_cons]
          ring
        | none =>
          cases hb : build_material_change_index recs mn steps with
          | error e =>
            rw [bmci_go_build_err mn recs rest acc steps e hs hg hb] at h
            exact Except.noConfusion h
          | ok node =>
            rw [bmci_go_new mn recs rest acc steps node hs hg hb] at h
            rcases build_mci_ok_inv recs mn steps node hb with ⟨ci, hci, hnode⟩
            rw [ih _ res h]
            have happ : total_quantity (acc ++ [node]) =
                total_quantity acc + sum_quantities recs := by
              rw [hnode]
              simp [total_quantity]
            rw [happ]
            simp only [group_total, List.map_cons, List.sum_cons]
            ring

/-- The derived key of a group found in the output list is the found
node's key. -/
theorem derived_key_of_found (mn : String) (node : MciNode)
    (hp : py_slice mn 0 7 = node.attributes.partNumber)
    (hc : py_int_exc (py_slice mn 7 9) = .ok node.attributes.changeIndex) :
    derived_key mn = .ok (node_key node) := by
  rw [derived_key, hc]
  simp only [except_bind_ok]
  rw [node_key, hp]

/-- Key order across the outer loop: the keys of the output are the keys
of the input extended, group by group, by first occurrence of each derived
key. -/
theorem bmci_keys : ∀ (groups : List (String × List DemandRecord)) (acc res : List MciNode)
    (ks : List (String × Int)),
    build_material_change_indexes_go groups acc = .ok res →
    derived_keys groups = .ok ks →
    res.map node_key = ks.foldl add_first_occur (acc.map node_key) := by
  intro groups
  induction groups with
  | nil =>
    intro acc res ks h hks
    rw [build_material_change_indexes_go] at h
    rw [derived_keys] at hks
    rw [← Except.ok.inj h, ← Except.ok.inj hks]
    rfl
  | cons g rest ih =>
    obtain ⟨mn, recs⟩ := g
    intro acc res ks h hks
    rw [derived_keys] at hks
    cases hdk : derived_key mn with
    | error e => rw [hdk] at hks; exact Except.noConfusion hks
    | ok k =>
      rw [hdk] at hks
      simp only [except_bind_ok] at hks
      cases hdks : derived_keys rest with
      | error e => rw [hdks] at hks; exact Except.noConfusion hks
      | ok ks' =>
        rw [hdks] at hks
        simp only [except_bind_ok] at hks
        rw [← Except.ok.inj hks]
        cases hs : build_vehicle_production_steps recs with
        | error e =>
          rw [bmci_go_steps_err mn recs rest acc e hs] at h
          exact Except.noConfusion h
        | ok steps =>
          cases hg : get_material_change_index acc mn with
          | error e =>
            rw [bmci_go_get_err mn recs rest acc steps e hs hg] at h
            exact Except.noConfusion h
          | ok found =>
            cases found with
            | some node =>
              rw [bmci_go_found mn recs rest acc steps node hs hg] at h
              have hprops := get_some_props acc mn node hg
              have hk : k = node_key node := by
                have := derived_key_of_found mn node hprops.2.1 hprops.2.2
                rw [hdk] at this
                exact Except.ok.inj this
              have hmem : k ∈ acc.map node_key := by
                rw [hk]
                exact List.mem_map_of_mem node_key hprops.1
              have := ih _ res ks' h hdks
              rw [agtn_map_key] at this
              rw [this, List.foldl_cons]
              congr 1
              simp [add_first_occur, hmem]
            | none =>
              cases hb : build_material_change_index recs mn steps with
              | error e =>
                rw [bmci_go_build_err mn recs rest acc steps e hs hg hb] at h
                exact Except.noConfusion h
              | ok node =>
                rw [bmci_go_new mn recs rest acc steps node hs hg hb] at h
                rcases build_mci_ok_inv recs mn steps node hb with ⟨ci, hci, hnode⟩
                have hkci : k = (py_slice mn 0 7, ci) := by
                  rw [derived_key, hci] at hdk
                  simp only [except_bind_ok] at hdk
                  exact (Except.ok.inj hdk).symm
                have hnk : node_key node = k := by
                  rw [hnode, hkci]
                  rfl
                have hnmem : k ∉ acc.map node_key := by
                  intro hmem
                  rcases List.mem_map.mp hmem with ⟨n, hn, hkey⟩
                  exact get_none_no_match acc mn ci hg hci n hn (hkci ▸ hkey)
                have := ih _ res ks' h hdks
                rw [this, List.foldl_cons]
                congr 1
                simp only [List.map_append, List.map_cons, List.map_nil, hnk]
                simp [add_first_occur, hnmem]

/-- On a successful aggregation every group's derived key parses. -/
theorem bmci_ok_keys : ∀ (groups : List (String × List DemandRecord)) (acc res : List MciNode),
    build_material_change_indexes_go groups acc = .ok res →
    ∃ ks, derived_keys groups = .ok ks := by
  intro groups
  induction groups with
  | nil => intro acc res _; exact ⟨[], rfl⟩
  | cons g rest ih =>
    obtain ⟨mn, recs⟩ := g
    intro acc res h
    cases hs : build_vehicle_production_steps recs with
    | error e => rw [bmci_go_steps_err mn recs rest acc e hs] at h; exact Except.noConfusion h
    | ok steps =>
      cases hg : get_material_change_index acc mn with
      | error e =>
        rw [bmci_go_get_err mn recs rest acc steps e hs hg] at h
        exact Except.noConfusion h
      | ok found =>
        cases found with
        | some node =>
          rw [bmci_go_found mn recs rest acc steps node hs hg] at h
          have hprops := get_some_props acc mn node hg
          rcases ih _ res h with ⟨ks', hks'⟩
          refine ⟨node_key node :: ks', ?_⟩
          rw [derived_keys, derived_key_of_found mn node hprops.2.1 hprops.2.2]
          simp only [except_bind_ok]
          rw [hks']
          rfl
        | none =>
          cases hb : build_material_change_index recs mn steps with
          | error e =>
            rw [bmci_go_build_err mn recs rest acc steps e hs hg hb] at h
            exact Except.noConfusion h
          | ok node =>
            rw [bmci_go_new mn recs rest acc steps node hs hg hb] at h
            rcases build_mci_ok_inv recs mn steps node hb with ⟨ci, hci, hnode⟩
            rcases ih _ res h with ⟨ks', hks'⟩
            refine ⟨(py_slice mn 0 7, ci) :: ks', ?_⟩
            rw [derived_keys, derived_key, hci]
            simp only [except_bind_ok]
            rw [hks']
            rfl

/-- A record missing one of the four provenance keys makes
`build_vehicle_production_step` raise a `KeyError` naming one of them. -/
theorem build_step_missing (r : DemandRecord) (s : String)
    (h : r.reservationPosition = none ∨ r.reservationNumber = none ∨
      r.peggedRequirement = none ∨ r.itemCategory = none) :
    ∃ k, build_vehicle_production_step r s = .error (.keyError k) ∧
      k ∈ ["reservationPosition", "reservationNumber", "peggedRequirement", "itemCategory"] := by
  cases hrp : r.reservationPosition with
  | none =>
    refine ⟨"reservationPosition", ?_, by simp⟩
    unfold build_vehicle_production_step
    rw [hrp]
    rfl
  | some rp =>
    cases hrn : r.reservationNumber with
    | none =>
      refine ⟨"reservationNumber", ?_, by simp⟩
      unfold build_vehicle_production_step
      rw [hrp, hrn]
      rfl
    | some rn =>
      cases hpr : r.peggedRequirement with
      | none =>
        refine ⟨"peggedRequirement", ?_, by simp⟩
        unfold build_vehicle_production_step
        rw [hrp, hrn, hpr]
        rfl
      | some pr =>
        cases hic : r.itemCategory with
        | none =>
          refine ⟨"itemCategory", ?_, by simp⟩
          unfold build_vehicle_production_step
          rw [hrp, hrn, hpr, hic]
          rfl
        | some ic =>
          exfalso
          rcases h with h | h | h | h
          · rw [hrp] at h; exact Option.noConfusion h
          · rw [hrn] at h; exact Option.noConfusion h
          · rw [hpr] at h; exact Option.noConfusion h
          · rw [hic] at h; exact Option.noConfusion h

/-- The only errors `build_vehicle_production_step` can raise are
key-lookup errors. -/
theorem build_step_err_is_key (r : DemandRecord) (s : String) (e : PyError)
    (h : build_vehicle_production_step r s = .error e) : ∃ k, e = .keyError k := by
  unfold build_vehicle_production_step at h
  cases hrp : r.reservationPosition with
  | none => rw [hrp] at h; exact ⟨"reservationPosition", (Except.error.inj h).symm⟩
  | some rp =>
    rw [hrp] at h
    cases hrn : r.reservationNumber with
    | none => rw [hrn] at h; exact ⟨"reservationNumber", (Except.error.inj h).symm⟩
    | some rn =>
      rw [hrn] at h
      cases hpr : r.peggedRequirement with
      | none => rw [hpr] at h; exact ⟨"peggedRequirement", (Except.error.inj h).symm⟩
      | some pr =>
        rw [hpr] at h
        cases hic : r.itemCategory with
        | none => rw [hic] at h; exact ⟨"itemCategory", (Except.error.inj h).symm⟩
        | some ic => rw [hic] at h; exact Except.noConfusion h

/-- `add_quantity_first` never changes the step codes of a list. -/
theorem add_quantity_first_map_step (s : String) (q : Int) :
    ∀ l : List StepNode, (add_quantity_first s q l).map node_step = l.map node_step := by
  intro l
  induction l with
  | nil => rfl
  | cons n rest ih =>
    by_cases h : (node_step n == s) = true
    · simp only [add_quantity_first, if_pos h, List.map_cons, node_step_update]
    · simp only [add_quantity_first, if_neg h, List.map_cons, ih]

/-- Any error of the inner loop is a key-lookup error: the loop's only
failure point is `build_vehicle_production_step`. -/
theorem steps_go_err_is_key : ∀ (recs : List DemandRecord) (steps : List StepNode) (flag : Bool)
    (e : PyError), build_vehicle_production_steps_go recs steps flag = .error e →
    ∃ k, e = .keyError k := by
  intro recs
  induction recs with
  | nil => intro steps flag e h; exact Except.noConfusion h
  | cons x rest ih =>
    intro steps flag e h
    by_cases hex : ∃ n ∈ steps, node_step n = record_step x
    · rw [steps_go_found x rest steps flag hex] at h
      exact ih _ true e h
    · push_neg at hex
      by_cases hfl : steps = [] ∧ flag = true
      · obtain ⟨rfl, rfl⟩ := hfl
        exact ih [] true e h
      · have hflag : steps = [] → flag = false := by
          intro hnil
          cases hf : flag
          · rfl
          · exact absurd ⟨hnil, hf⟩ hfl
        cases hb : build_vehicle_production_step x (record_step x) with
        | error e2 =>
          rw [steps_go_err x rest steps flag e2 hex hflag hb] at h
          rcases build_step_err_is_key x (record_step x) e2 hb with ⟨k, hk⟩
          exact ⟨k, (Except.error.inj h).symm ▸ hk⟩
        | ok n1 =>
          rw [steps_go_new x rest steps flag n1 hex hflag hb] at h
          exact ih _ false e h

/-- The inner loop fails whenever the first record of some production step
within the group misses a provenance key. -/
theorem steps_go_err_of_missing :
    ∀ (recs : List DemandRecord) (steps : List StepNode) (flag : Bool) (r : DemandRecord),
      recs.find? (fun x => record_step x == record_step r) = some r →
      (∀ n ∈ steps, node_step n ≠ record_step r) →
      (steps = [] → flag = false) →
      (r.reservationPosition = none ∨ r.reservationNumber = none ∨
        r.peggedRequirement = none ∨ r.itemCategory = none) →
      ∃ e, build_vehicle_production_steps_go recs steps flag = .error e := by
  intro recs
  induction recs with
  | nil => intro steps flag r hfind _ _ _; exact Option.noConfusion hfind
  | cons x rest ih =>
    intro steps flag r hfind hsteps hflag hmiss
    rw [List.find?_cons] at hfind
    by_cases hpx : (record_step x == record_step r) = true
    · rw [hpx] at hfind
      have hxr : x = r := Option.some.inj hfind
      subst hxr
      rcases build_step_missing x (record_step x) hmiss with ⟨k, hb, -⟩
      exact ⟨.keyError k, steps_go_err x rest steps flag (.keyError k) hsteps hflag hb⟩
    · rw [Bool.eq_false_iff.mpr hpx] at hfind
      by_cases hex : ∃ n ∈ steps, node_step n = record_step x
      · rw [steps_go_found x rest steps flag hex]
        apply ih _ true r hfind
        · intro n hn
          have : node_step n ∈ (add_quantity_first (record_step x) x.quantity steps).map node_step :=
            List.mem_map_of_mem node_step hn
          rw [add_quantity_first_map_step] at this
          rcases List.mem_map.mp this with ⟨n', hn', hns⟩
          rw [← hns]
          exact hsteps n' hn'
        · intro hnil
          exfalso
          rcases hex with ⟨n, hn, -⟩
          have hlen : steps.length = 0 := by
            rw [← length_add_quantity_first (record_step x) x.quantity steps, hnil]
            rfl
          rw [List.length_eq_zero] at hlen
          subst hlen
          exact List.not_mem_nil n hn
        · exact hmiss
      · push_neg at hex
        cases hb : build_vehicle_production_step x (record_step x) with
        | error e2 => exact ⟨e2, steps_go_err x rest steps flag e2 hex hflag hb⟩
        | ok n1 =>
          rw [steps_go_new x rest steps flag n1 hex hflag hb]
          apply ih _ false r hfind
          · intro n hn
            rcases List.mem_append.mp hn with hn' | hn'
            · exact hsteps n hn'
            · rw [List.mem_singleton] at hn'
              rw [hn', node_step, (build_step_ok_inv x (record_step x) n1 hb).1]
              exact fun hc => hpx (beq_iff_eq.mpr hc)
          · intro; rfl
          · exact hmiss


/-- A group containing a first-of-its-step record with a missing
provenance key makes its step reduction fail with a key-lookup error. -/
theorem build_steps_err_of_missing (recs : List DemandRecord) (r : DemandRecord)
    (hfind : recs.find? (fun x => record_step x == record_step r) = some r)
    (hmiss : r.reservationPosition = none ∨ r.reservationNumber = none ∨
      r.peggedRequirement = none ∨ r.itemCategory = none) :
    ∃ k, build_vehicle_production_steps recs = .error (.keyError k) := by
  rcases steps_go_err_of_missing recs [] false r hfind (by simp) (fun _ => rfl) hmiss with ⟨e, he⟩
  rcases steps_go_err_is_key recs [] false e he with ⟨k, rfl⟩
  exact ⟨k, he⟩

/-- The outer loop fails as soon as any of its groups' step reductions
fails. -/
theorem bmci_err_of_steps_err : ∀ (groups : List (String × List DemandRecord))
    (acc : List MciNode) (g : String × List DemandRecord) (e : PyError),
    g ∈ groups → build_vehicle_production_steps g.2 = .error e →
    ∃ e', build_material_change_indexes_go groups acc = .error e' := by
  intro groups
  induction groups with
  | nil => intro acc g e hg _; exact absurd hg (List.not_mem_nil g)
  | cons g0 rest ih =>
    obtain ⟨mn, recs⟩ := g0
    intro acc g e hg herr
    rcases List.mem_cons.mp hg with rfl | hg'
    · exact ⟨e, bmci_go_steps_err mn recs rest acc e herr⟩
    · cases hs : build_vehicle_production_steps recs with
      | error e2 => exact ⟨e2, bmci_go_steps_err mn recs rest acc e2 hs⟩
      | ok steps =>
        cases hg2 : get_material_change_index acc mn with
        | error e2 => exact ⟨e2, bmci_go_get_err mn recs rest acc steps e2 hs hg2⟩
        | ok found =>
          cases found with
          | some node =>
            rcases ih _ g e hg' herr with ⟨e', h'⟩
            exact ⟨e', by rw [bmci_go_found mn recs rest acc steps node hs hg2]; exact h'⟩
          | none =>
            cases hb : build_material_change_index recs mn steps with
            | error e2 => exact ⟨e2, bmci_go_build_err mn recs rest acc steps e2 hs hg2 hb⟩
            | ok node =>
              rcases ih _ g e hg' herr with ⟨e', h'⟩
              exact ⟨e', by rw [bmci_go_new mn recs rest acc steps node hs hg2 hb]; exact h'⟩

/-- The outer loop fails as soon as any of its groups has an unparsable
change-index slice. -/
theorem bmci_err_of_bad_key : ∀ (groups : List (String × List DemandRecord))
    (acc : List MciNode) (g : String × List DemandRecord),
    g ∈ groups → py_int (py_slice g.1 7 9) = none →
    ∃ e', build_material_change_indexes_go groups acc = .error e' := by
  intro groups
  induction groups with
  | nil => intro acc g hg _; exact absurd hg (List.not_mem_nil g)
  | cons g0 rest ih =>
    obtain ⟨mn, recs⟩ := g0
    intro acc g hg hbad
    rcases List.mem_cons.mp hg with rfl | hg'
    · cases hs : build_vehicle_production_steps recs with
      | error e2 => exact ⟨e2, bmci_go_steps_err mn recs rest acc e2 hs⟩
      | ok steps =>
        rcases get_bad_parse acc mn hbad with hnone | ⟨e2, herr⟩
        · have hb : build_material_change_index recs mn steps =
              .error (.valueError (py_slice mn 7 9)) := by
            rw [build_material_change_index]
            have : py_int_exc (py_slice mn 7 9) = .error (.valueError (py_slice mn 7 9)) := by
              rw [py_int_exc, hbad]
            rw [this]
            rfl
          exact ⟨_, bmci_go_build_err mn recs rest acc steps _ hs hnone hb⟩
        · exact ⟨e2, bmci_go_get_err mn recs rest acc steps e2 hs herr⟩
    · cases hs : build_vehicle_production_steps recs with
      | error e2 => exact ⟨e2, bmci_go_steps_err mn recs rest acc e2 hs⟩
      | ok steps =>
        cases hg2 : get_material_change_index acc mn with
        | error e2 => exact ⟨e2, bmci_go_get_err mn recs rest acc steps e2 hs hg2⟩
        | ok found =>
          cases found with
          | some node =>
            rcases ih _ g hg' hbad with ⟨e', h'⟩
            exact ⟨e', by rw [bmci_go_found mn recs rest acc steps node hs hg2]; exact h'⟩
          | none =>
            cases hb : build_material_change_index recs mn steps with
            | error e2 => exact ⟨e2, bmci_go_build_err mn recs rest acc steps e2 hs hg2 hb⟩
            | ok node =>
              rcases ih _ g hg' hbad with ⟨e', h'⟩
              exact ⟨e', by rw [bmci_go_new mn recs rest acc steps node hs hg2 hb]; exact h'⟩

/-- Inserting a record guarantees a group with its material number. -/
theorem insert_group_has_key (m : DemandRecord) :
    ∀ acc : List (String × List DemandRecord),
      ∃ g ∈ insert_group acc m, g.1 = m.materialNumber := by
  intro acc
  induction acc with
  | nil => exact ⟨(m.materialNumber, [m]), List.mem_singleton.mpr rfl, rfl⟩
  | cons g0 rest ih =>
    obtain ⟨k, gr⟩ := g0
    by_cases hk : (k == m.materialNumber) = true
    · refine ⟨(k, gr ++ [m]), ?_, beq_iff_eq.mp hk⟩
      simp [insert_group, hk]
    · rcases ih with ⟨g, hg, hgk⟩
      refine ⟨g, ?_, hgk⟩
      simp only [insert_group, if_neg hk]
      exact List.mem_cons_of_mem _ hg

/-- Inserting a record preserves every existing group key. -/
theorem insert_group_keeps_key (m : DemandRecord) (k : String) :
    ∀ acc : List (String × List DemandRecord), (∃ g ∈ acc, g.1 = k) →
      ∃ g ∈ insert_group acc m, g.1 = k := by
  intro acc
  induction acc with
  | nil => intro h; rcases h with ⟨g, hg, -⟩; exact absurd hg (List.not_mem_nil g)
  | cons g0 rest ih =>
    obtain ⟨k0, gr⟩ := g0
    intro h
    by_cases hk0 : (k0 == m.materialNumber) = true
    · simp only [insert_group, if_pos hk0]
      rcases h with ⟨g, hg, hgk⟩
      rcases List.mem_cons.mp hg with rfl | hg'
      · exact ⟨(k0, gr ++ [m]), List.mem_cons_self _ _, hgk⟩
      · exact ⟨g, List.mem_cons_of_mem _ hg', hgk⟩
    · simp only [insert_group, if_neg hk0]
      rcases h with ⟨g, hg, hgk⟩
      rcases List.mem_cons.mp hg with rfl | hg'
      · exact ⟨(k0, gr), List.mem_cons_self _ _, hgk⟩
      · rcases ih ⟨g, hg', hgk⟩ with ⟨g', hg'', hgk'⟩
        exact ⟨g', List.mem_cons_of_mem _ hg'', hgk'⟩

/-- Folding more records over the grouping preserves every group key. -/
theorem foldl_keeps_key : ∀ (l : List DemandRecord) (acc : List (String × List DemandRecord))
    (k : String), (∃ g ∈ acc, g.1 = k) → ∃ g ∈ l.foldl insert_group acc, g.1 = k := by
  intro l
  induction l with
  | nil => intro acc k h; exact h
  | cons x t ih => intro acc k h; exact ih _ k (insert_group_keeps_key x k acc h)

/-- Every record of the filtered list lands in a group keyed by its own
material number. -/
theorem mem_grouped : ∀ (l : List DemandRecord) (acc : List (String × List DemandRecord))
    (r : DemandRecord), r ∈ l →
    ∃ g ∈ l.foldl insert_group acc, g.1 = r.materialNumber := by
  intro l
  induction l with
  | nil => intro acc r hr; exact absurd hr (List.not_mem_nil r)
  | cons x t ih =>
    intro acc r hr
    rcases List.mem_cons.mp hr with rfl | hr'
    · exact foldl_keeps_key t _ _ (insert_group_has_key r acc)
    · exact ih _ r hr'

/-- When the change-index slice parses and no node carries the derived
key, the search comes back empty. -/
theorem get_none : ∀ (acc : List MciNode) (mn : String) (ci : Int),
    py_int_exc (py_slice mn 7 9) = .ok ci →
    (∀ n ∈ acc, node_key n ≠ (py_slice mn 0 7, ci)) →
    get_material_change_index acc mn = .ok none := by
  intro acc
  induction acc with
  | nil => intro mn ci _ _; rfl
  | cons m rest ih =>
    intro mn ci hci hnone
    rw [get_material_change_index]
    by_cases hpre : (py_slice mn 0 7 == m.attributes.partNumber) = true
    · rw [if_pos hpre, hci]
      simp only [except_bind_ok]
      by_cases hc : (ci == m.attributes.changeIndex) = true
      · exfalso
        apply hnone m (List.mem_cons_self m rest)
        rw [node_key, ← beq_iff_eq.mp hpre, ← beq_iff_eq.mp hc]
      · rw [if_neg hc]
        exact ih mn ci hci (fun n hn => hnone n (List.mem_cons_of_mem m hn))
    · rw [if_neg hpre]
      exact ih mn ci hci (fun n hn => hnone n (List.mem_cons_of_mem m hn))

/-- Inversion of a successful `build_body`: the document's type tag,
vehicle attributes, and children come from the respective stages. -/
theorem build_body_ok_inv (v : StardKafkaVehicle) (body : Body)
    (h : build_body v = .ok body) :
    build_vehicle_attributes v = .ok body.attributes ∧
    build_material_change_indexes (build_grouped_materials v) = .ok body.children ∧
    body.type = "vehicle" := by
  simp only [build_body] at h
  cases ha : build_vehicle_attributes v with
  | error e => rw [ha] at h; exact Except.noConfusion h
  | ok a =>
    rw [ha] at h
    simp only [except_bind_ok] at h
    cases hm : build_material_change_indexes (build_grouped_materials v) with
    | error e => rw [hm] at h; exact Except.noConfusion h
    | ok cs =>
      rw [hm] at h
      simp only [except_bind_ok] at h
      rw [← Except.ok.inj h]
      exact ⟨rfl, rfl, rfl⟩

/-- Inserting a record adds exactly its quantity to the grouped total. -/
theorem group_total_insert (m : DemandRecord) :
    ∀ acc, group_total (insert_group acc m) = group_total acc + m.quantity := by
  intro acc
  induction acc with
  | nil => simp [insert_group, group_total, sum_quantities]
  | cons g0 rest ih =>
    obtain ⟨k, gr⟩ := g0
    by_cases hk : (k == m.materialNumber) = true
    · simp only [insert_group, if_pos hk, group_total, List.map_cons, List.sum_cons]
      rw [sum_quantities_append]
      simp [sum_quantities]
      ring
    · simp only [insert_group, if_neg hk, group_total, List.map_cons, List.sum_cons]
      simp only [group_total] at ih
      rw [ih]
      ring

/-- Grouping preserves the total quantity of the records. -/
theorem group_total_foldl : ∀ (l : List DemandRecord) (acc : List (String × List DemandRecord)),
    group_total (l.foldl insert_group acc) = group_total acc + sum_quantities l := by
  intro l
  induction l with
  | nil => intro acc; simp [group_total, sum_quantities]
  | cons x t ih =>
    intro acc
    rw [List.foldl_cons, ih, group_total_insert]
    simp [sum_quantities]
    ring

/-- The grouped total equals the filtered total. -/
theorem group_total_grouped (v : StardKafkaVehicle) :
    group_total (build_grouped_materials v) = sum_quantities (filtered_materials v.materials) := by
  rw [build_grouped_materials, group_total_foldl]
  simp [group_total]

/-- The quantity of the step-`s` node of a finished group, read off the
invariant: present iff the group has a record of that step, and then equal
to the accumulated sum. -/
theorem step_quantity_of_inv (recs : List DemandRecord) (steps : List StepNode) (s : String)
    (hinv : step_inv recs steps) :
    (steps.find? (fun n => node_step n == s)).map (fun n => n.relationshipAttributes.quantity) =
      if recs.filter (fun x => record_step x == s) = [] then none
      else some (sum_quantities (recs.filter (fun x => record_step x == s))) := by
  cases hfind : steps.find? (fun n => node_step n == s) with
  | some n =>
    have hp : node_step n = s := by
      have := List.find?_some hfind
      simpa using this
    have hn : n ∈ steps := List.mem_of_find?_eq_some hfind
    rcases hinv.2 n hn with ⟨hq, -⟩
    have hne : recs.filter (fun x => record_step x == s) ≠ [] := by
      have hmem : s ∈ steps.map node_step := hp ▸ List.mem_map_of_mem node_step hn
      rw [hinv.1, mem_first_occurs] at hmem
      rcases List.mem_map.mp hmem with ⟨r, hr, hrs⟩
      intro hnil
      have : r ∈ recs.filter (fun x => record_step x == s) :=
        List.mem_filter.mpr ⟨hr, beq_iff_eq.mpr hrs⟩
      rw [hnil] at this
      exact List.not_mem_nil r this
    rw [if_neg hne, Option.map_some']
    rw [hp] at hq
    rw [hq]
  | none =>
    have hall := List.find?_eq_none.mp hfind
    have hfil : recs.filter (fun x => record_step x == s) = [] := by
      rw [List.filter_eq_nil_iff]
      intro x hx hbeq
      have hs : s ∈ recs.map record_step :=
        (beq_iff_eq.mp hbeq) ▸ List.mem_map_of_mem record_step hx
      have hs2 : s ∈ steps.map node_step := by
        rw [hinv.1, mem_first_occurs]
        exact hs
      rcases List.mem_map.mp hs2 with ⟨n, hn, hns⟩
      exact hall n hn (beq_iff_eq.mpr hns)
    rw [if_pos hfil, Option.map_none']

/-- C1: after a group's ProductionStepNode sequence is built, if the
output list already holds a node whose `(partNumber, changeIndex)` equals
the key derived from the group's material number, the group's total
quantity is added to that node and the group's whole step sequence is
appended to its children verbatim (no per-step deduplication against the
pre-existing children); otherwise a new node with the derived key, the
total quantity and the step sequence is appended to the output list. -/
theorem claim_C1 (material_number : String) (recs : List DemandRecord)
    (rest : List (String × List DemandRecord)) (acc : List MciNode)
    (steps : List StepNode) (ci : Int)
    (hsteps : build_vehicle_production_steps recs = .ok steps)
    (hci : py_int_exc (py_slice material_number 7 9) = .ok ci) :
    ((∃ n ∈ acc, node_key n = (py_slice material_number 0 7, ci)) →
      build_material_change_indexes_go ((material_number, recs) :: rest) acc =
        build_material_change_indexes_go rest
          (add_group_to_node (py_slice material_number 0 7) ci
            (sum_quantities recs) steps acc)) ∧
    ((∀ n ∈ acc, node_key n ≠ (py_slice material_number 0 7, ci)) →
      build_material_change_indexes_go ((material_number, recs) :: rest) acc =
        build_material_change_indexes_go rest (acc ++
          [{ type := "materialChangeIndex",
             attributes := { partNumber := py_slice material_number 0 7, changeIndex := ci },
             relationshipAttributes := { quantity := sum_quantities recs },
             relationshipChildren := steps }])) := by
  constructor
  · intro hex
    rcases get_found acc material_number ci hci hex with ⟨node, hget, hkey⟩
    rw [bmci_go_found material_number recs rest acc steps node hsteps hget]
    have hp : node.attributes.partNumber = py_slice material_number 0 7 :=
      congrArg Prod.fst hkey
    have hc : node.attributes.changeIndex = ci := congrArg Prod.snd hkey
    rw [hp, hc]
  · intro hnone
    have hget := get_none acc material_number ci hci hnone
    have hb : build_material_change_index recs material_number steps =
        .ok { type := "materialChangeIndex",
              attributes := { partNumber := py_slice material_number 0 7, changeIndex := ci },
              relationshipAttributes := { quantity := sum_quantities recs },
              relationshipChildren := steps } := by
      rw [build_material_change_index, hci]
      rfl
    rw [bmci_go_new material_number recs rest acc steps _ hsteps hget hb]

/-- C2 (amended): a filtered record whose change-index slice
`materialNumber[7:9]` does not parse as an integer (any material number of
length at most 7, or one whose slice is non-numeric) makes the aggregation
and the whole transformation fail — with an untyped `ValueError`-style
error, since no `MalformedRecordError` exists in the code; a material
number of exactly 8 characters with a numeric final character is instead
silently coerced (see the counterexample). -/
theorem claim_C2_amended (v : StardKafkaVehicle) (r : DemandRecord)
    (hr : r ∈ v.materials) (hvh : py_startswith r.plannedOrderId "VH_" = true)
    (hbad : py_int (py_slice r.materialNumber 7 9) = none) :
    (∃ e, build_material_change_indexes (build_grouped_materials v) = .error e) ∧
    (∃ e, build_body v = .error e) := by
  have hrf : r ∈ filtered_materials v.materials := List.mem_filter.mpr ⟨hr, hvh⟩
  rcases mem_grouped (filtered_materials v.materials) [] r hrf with ⟨g, hg, hgk⟩
  have hbadg : py_int (py_slice g.1 7 9) = none := by rw [hgk]; exact hbad
  rcases bmci_err_of_bad_key (build_grouped_materials v) [] g hg hbadg with ⟨e, he⟩
  constructor
  · exact ⟨e, he⟩
  · cases ha : build_vehicle_attributes v with
    | error e2 => exact ⟨e2, by simp only [build_body]; rw [ha]; rfl⟩
    | ok a =>
      refine ⟨e, ?_⟩
      simp only [build_body]
      rw [ha]
      simp only [except_bind_ok]
      rw [build_material_change_indexes, he]
      rfl

/-- C3: on success, the sum of the quantities of all output
MaterialChangeIndexNodes equals the sum of the quantities of all filtered
input records. -/
theorem claim_C3 (v : StardKafkaVehicle) (body : Body) (h : build_body v = .ok body) :
    total_quantity body.children = sum_quantities (filtered_materials v.materials) := by
  rcases build_body_ok_inv v body h with ⟨-, hm, -⟩
  rw [build_material_change_indexes] at hm
  rw [bmci_total (build_grouped_materials v) [] body.children hm, group_total_grouped]
  simp [total_quantity]

/-- C4: on success, no two MaterialChangeIndexNodes of the final output
list share the same `(partNumber, changeIndex)` pair. -/
theorem claim_C4 (v : StardKafkaVehicle) (body : Body) (h : build_body v = .ok body) :
    body.children.Pairwise (fun a b => node_key a ≠ node_key b) := by
  rcases build_body_ok_inv v body h with ⟨-, hm, -⟩
  rw [build_material_change_indexes] at hm
  rcases bmci_ok_keys (build_grouped_materials v) [] body.children hm with ⟨ks, hks⟩
  have hkeys := bmci_keys (build_grouped_materials v) [] body.children ks hm hks
  have hnd : (body.children.map node_key).Nodup := by
    rw [hkeys]
    exact nodup_foldl_add_first_occur ks [] List.nodup_nil
  exact List.pairwise_map.mp hnd

/-- C5: within a group, a record whose step code matches an existing node
only adds its quantity to that (first matching) node, leaving the node's
passthrough fields and the rest of the list unchanged and appending
nothing; a record with a new step code appends a node seeded from it; and
on success every step code owns at most one node, whose quantity is the
sum over its records and whose passthrough fields are the first such
record's. -/
theorem claim_C5 (gm : DemandRecord) (rest : List DemandRecord) (steps : List StepNode)
    (flag : Bool) (hflag : steps = [] → flag = false) :
    ((∃ n ∈ steps, node_step n = record_step gm) →
      build_vehicle_production_steps_go (gm :: rest) steps flag =
        build_vehicle_production_steps_go rest
          (add_quantity_first (record_step gm) gm.quantity steps) true) ∧
    (∀ n1, (∀ n ∈ steps, node_step n ≠ record_step gm) →
      build_vehicle_production_step gm (record_step gm) = .ok n1 →
      build_vehicle_production_steps_go (gm :: rest) steps flag =
        build_vehicle_production_steps_go rest (steps ++ [n1]) false) ∧
    (∀ (recs : List DemandRecord) (res : List StepNode),
      build_vehicle_production_steps recs = .ok res →
      (res.map node_step).Nodup ∧
      ∀ n ∈ res, n.relationshipAttributes.quantity =
          sum_quantities (recs.filter (fun x => record_step x == node_step n)) ∧
        ∃ r, recs.find? (fun x => record_step x == node_step n) = some r ∧
          ∃ n0, build_vehicle_production_step r (record_step r) = .ok n0 ∧
            same_passthrough n n0) := by
  refine ⟨fun hex => steps_go_found gm rest steps flag hex,
    fun n1 hex hb => steps_go_new gm rest steps flag n1 hex hflag hb,
    fun recs res hres => ?_⟩
  have hinv := build_steps_spec recs res hres
  constructor
  · rw [hinv.1]
    exact nodup_first_occurs _
  · exact hinv.2

/-- C6: the output MaterialChangeIndexNodes appear in first-occurrence
order of the groups' derived keys, and within each contributing group the
ProductionStepNodes appear in first-seen order of their step codes; later
duplicates only merge into existing nodes and never reorder. -/
theorem claim_C6 (v : StardKafkaVehicle) (body : Body) (ks : List (String × Int))
    (h : build_body v = .ok body)
    (hks : derived_keys (build_grouped_materials v) = .ok ks) :
    body.children.map node_key = first_occurs ks ∧
    ∀ (mn : String) (recs : List DemandRecord) (steps : List StepNode),
      (mn, recs) ∈ build_grouped_materials v →
      build_vehicle_production_steps recs = .ok steps →
      steps.map node_step = first_occurs (recs.map record_step) := by
  constructor
  · rcases build_body_ok_inv v body h with ⟨-, hm, -⟩
    rw [build_material_change_indexes] at hm
    rw [bmci_keys (build_grouped_materials v) [] body.children ks hm hks]
    rfl
  · intro mn recs steps _ hsteps
    exact (build_steps_spec recs steps hsteps).1

/-- C7: the filter stage is the total function returning exactly the
sublist of records whose `plannedOrderId` starts with the vehicle-order
prefix, and an empty filtered list yields a successful document with an
empty children list (given the vehicle attributes themselves build). -/
theorem claim_C7 (v : StardKafkaVehicle) :
    (filtered_materials v.materials).Sublist v.materials ∧
    (∀ r, r ∈ filtered_materials v.materials ↔
      r ∈ v.materials ∧ py_startswith r.plannedOrderId "VH_" = true) ∧
    (∀ attrs, build_vehicle_attributes v = .ok attrs →
      filtered_materials v.materials = [] →
      build_body v = .ok { type := "vehicle", attributes := attrs, children := [] }) := by
  refine ⟨List.filter_sublist _, fun r => List.mem_filter, ?_⟩
  intro attrs ha hempty
  simp only [build_body]
  rw [ha]
  simp only [except_bind_ok]
  have hg : build_grouped_materials v = [] := by
    rw [build_grouped_materials, hempty]
    rfl
  rw [hg]
  rfl

/-- C8: permuting the records of a group that share a production-step
code leaves that step's accumulated quantity unchanged. -/
theorem claim_C8 (recs recs' : List DemandRecord) (steps steps' : List StepNode) (s : String)
    (h1 : build_vehicle_production_steps recs = .ok steps)
    (h2 : build_vehicle_production_steps recs' = .ok steps')
    (hperm : (recs.filter (fun x => record_step x == s)).Perm
      (recs'.filter (fun x => record_step x == s))) :
    (steps.find? (fun n => node_step n == s)).map (fun n => n.relationshipAttributes.quantity) =
      (steps'.find? (fun n => node_step n == s)).map
        (fun n => n.relationshipAttributes.quantity) := by
  rw [step_quantity_of_inv recs steps s (build_steps_spec recs steps h1),
    step_quantity_of_inv recs' steps' s (build_steps_spec recs' steps' h2)]
  by_cases hnil : recs.filter (fun x => record_step x == s) = []
  · have hnil' : recs'.filter (fun x => record_step x == s) = [] := by
      have := hperm
      rw [hnil] at this
      exact (this.symm).eq_nil
    rw [if_pos hnil, if_pos hnil']
  · have hnil' : recs'.filter (fun x => record_step x == s) ≠ [] := by
      intro hc
      apply hnil
      rw [hc] at hperm
      exact hperm.eq_nil
    rw [if_neg hnil, if_neg hnil']
    have hsum : sum_quantities (recs.filter (fun x => record_step x == s)) =
        sum_quantities (recs'.filter (fun x => record_step x == s)) := by
      rw [sum_quantities, sum_quantities]
      exact (hperm.map (fun m => m.quantity)).sum_eq
    rw [hsum]

/-- C9: the four provenance keys are required of the first record of each
production step within its group: if such a record misses one, the group's
step reduction raises an (untyped) key-lookup error and the whole
transformation fails. -/
theorem claim_C9 (v : StardKafkaVehicle) (g : String × List DemandRecord) (r : DemandRecord)
    (hg : g ∈ build_grouped_materials v)
    (hfind : g.2.find? (fun x => record_step x == record_step r) = some r)
    (hmiss : r.reservationPosition = none ∨ r.reservationNumber = none ∨
      r.peggedRequirement = none ∨ r.itemCategory = none) :
    (∃ k, build_vehicle_production_steps g.2 = .error (.keyError k)) ∧
    (∃ e, build_body v = .error e) := by
  rcases build_steps_err_of_missing g.2 r hfind hmiss with ⟨k, hk⟩
  refine ⟨⟨k, hk⟩, ?_⟩
  rcases bmci_err_of_steps_err (build_grouped_materials v) [] g (.keyError k) hg hk
    with ⟨e', he'⟩
  cases ha : build_vehicle_attributes v with
  | error e2 => exact ⟨e2, by simp only [build_body]; rw [ha]; rfl⟩
  | ok a =>
    refine ⟨e', ?_⟩
    simp only [build_body]
    rw [ha]
    simp only [except_bind_ok]
    rw [build_material_change_indexes, he']
    rfl

/-- C10: a `sapPlantId` outside the plant table does not make the
transformation fail: the plant-code lookup returns `None`, the output's
`plantCode` is `None`, and every other vehicle attribute and the children
list are produced as usual (provided the unrelated fields themselves are
well-formed). -/
theorem claim_C10 (v : StardKafkaVehicle) (st : Int) (tz : String) (children : List MciNode)
    (hplant : plant_source_system.lookup v.sapPlantId = none)
    (hst : py_int_exc v.orderStatus = .ok st)
    (htz : derive_timezone v.utcCheckpointTimestamp v.localCheckpointTimestamp = .ok tz)
    (hch : build_material_change_indexes (build_grouped_materials v) = .ok children) :
    get_bmw_plant_code v.sapPlantId = .ok none ∧
    build_body v = .ok {
      type := "vehicle",
      attributes := {
        Vin := v.vin17,
        SapPlantCode := v.sapPlantId,
        plantCode := none,
        buildDate := py_replace (py_take v.utcCheckpointTimestamp 10) "-" "",
        buildTime := py_replace (py_slice v.utcCheckpointTimestamp 11 19) ":" "",
        buildTimestamp := py_replace v.utcBuildTimestamp "Z" ".000Z",
        modelCode := v.modelCode,
        buildStatus := st,
        orderNumber := v.orderNumber,
        checkpointTimestamp := py_replace v.utcCheckpointTimestamp "Z" ".000Z",
        checkpointTimeZone := tz },
      children := children } := by
  have hplc : get_bmw_plant_code v.sapPlantId = .ok none := by
    rw [get_bmw_plant_code, hplant]
  refine ⟨hplc, ?_⟩
  simp only [build_body, build_vehicle_attributes]
  rw [hplc]
  simp only [except_bind_ok]
  rw [hst]
  simp only [except_bind_ok]
  rw [htz]
  simp only [except_bind_ok]
  rw [hch]
  rfl

/-- C2 (counterexample): the payload `v8` contains a filtered record whose
`materialNumber` `"12345678"` is shorter than 9 characters, yet the
transformation succeeds — the record is silently coerced into an output
node with `changeIndex = 8` instead of failing with any error, refuting
the claim that such inputs fail with a `MalformedRecordError`. -/
theorem claim_C2_counterexample :
    rec8.materialNumber.length < 9 ∧
    rec8 ∈ v8.materials ∧
    py_startswith rec8.plannedOrderId "VH_" = true ∧
    build_body v8 = .ok body8 := by
  refine ⟨by decide, by decide, by rfl, by rfl⟩

/-- Witness for C1 at a concrete group and empty output list: the
not-found branch appends the fresh node. -/
theorem claim_C1_witness :
    build_material_change_indexes_go [("123456701", [recA])] [] =
      build_material_change_indexes_go [] ([] ++
        [{ type := "materialChangeIndex",
           attributes := { partNumber := py_slice "123456701" 0 7, changeIndex := 1 },
           relationshipAttributes := { quantity := sum_quantities [recA] },
           relationshipChildren := [stepA] }]) :=
  (claim_C1 "123456701" [recA] [] [] [stepA] 1 (by rfl) (by rfl)).2 (by simp)

/-- Witness for the amended C2 at the 7-character material number. -/
theorem claim_C2_amended_witness :
    (∃ e, build_material_change_indexes (build_grouped_materials v7) = .error e) ∧
    (∃ e, build_body v7 = .error e) :=
  claim_C2_amended v7 rec7 (by decide) (by rfl) (by rfl)

/-- Witness for C3 at the sample payload: 5 = 2 + 3. -/
theorem claim_C3_witness :
    total_quantity bodyW.children = sum_quantities (filtered_materials vW.materials) :=
  claim_C3 vW bodyW (by rfl)

/-- Witness for C4 at the sample payload. -/
theorem claim_C4_witness :
    bodyW.children.Pairwise (fun a b => node_key a ≠ node_key b) :=
  claim_C4 vW bodyW (by rfl)

/-- Witness for C5: the duplicate-step record `recB` is folded into the
existing node rather than appended. -/
theorem claim_C5_witness :
    build_vehicle_production_steps_go [recB] [stepA] false =
      build_vehicle_production_steps_go []
        (add_quantity_first (record_step recB) recB.quantity [stepA]) true :=
  (claim_C5 recB [] [stepA] false (by simp)).1 ⟨stepA, List.mem_singleton.mpr rfl, rfl⟩

/-- Witness for C6 at the sample payload. -/
theorem claim_C6_witness :
    bodyW.children.map node_key = first_occurs [("1234567", 1)] :=
  (claim_C6 vW bodyW [("1234567", 1)] (by rfl) (by rfl)).1

/-- Witness for C7 at the empty-materials payload. -/
theorem claim_C7_witness :
    build_body v0 = .ok { type := "vehicle", attributes := attrsW, children := [] } :=
  (claim_C7 v0).2.2 attrsW (by rfl) (by rfl)

/-- Witness for C8 at the sample group and the identity permutation. -/
theorem claim_C8_witness :
    (([stepAB].find? (fun n => node_step n == "VH")).map
        (fun n => n.relationshipAttributes.quantity)) =
      (([stepAB].find? (fun n => node_step n == "VH")).map
        (fun n => n.relationshipAttributes.quantity)) :=
  claim_C8 [recA, recB] [recA, recB] [stepAB] [stepAB] "VH" (by rfl) (by rfl)
    (List.Perm.refl _)

/-- Witness for C9 at the payload whose only record misses `itemCategory`. -/
theorem claim_C9_witness :
    (∃ k, build_vehicle_production_steps [recM] = .error (.keyError k)) ∧
    (∃ e, build_body v9 = .error e) :=
  claim_C9 v9 ("123456701", [recM]) recM (by decide) (by rfl)
    (Or.inr (Or.inr (Or.inr rfl)))

/-- Witness for C10 at the unknown plant code `"XXXX"`. -/
theorem claim_C10_witness :
    get_bmw_plant_code v10.sapPlantId = .ok none ∧ build_body v10 = .ok body10 :=
  claim_C10 v10 5 "+0200" [mciA] (by rfl) (by rfl) (by rfl) (by rfl)

end Mapping
